import Mathlib

/-!
Shallow embedding of the ECS engine from `src/unnamed/part_000` (the `ecs.ts`
module of the repository).

Modelling conventions:
* `Entity` and `ComponentType` are `Nat` (the source uses monotonically
  increasing JS numbers).
* Component payloads are type-erased in the source (`Component<T = unknown>`);
  here the engine is parametrised by a payload type `α`.
* JS `Map`s are modelled as insertion-ordered association lists (`aGet`,
  `aSet`, `aDelete`, `aHas` below) and JS `Set`s as insertion-ordered
  duplicate-free lists (`setAdd`, `setDelete`), with the exact JS semantics:
  `Map.set` on an existing key overwrites in place (keeping the key's
  position), `Map.set` on a fresh key appends, `Set.add` appends if absent.
* `throw` is modelled with `Except Err`; operations that cannot throw are
  plain functions.
* `Date.now()` is modelled by passing the current clock reading (an `Int`,
  milliseconds) explicitly to `update`.
* The static counter `ECS.nextEntityID` lives in the state (spec §9
  recommends exactly this reimplementation); `ECS.nextComponentType` /
  `registerComponent` are not needed by the claims: a `ComponentCreator` is
  only ever consumed through its `.type` field, so `getComponent` takes the
  type id directly.
* A system's `update` method is arbitrary client code; it is modelled as a
  `Behavior`: a function from the system, its membership set and the public
  view of the engine to the list of API calls (`Cmd`) it performs.  Per spec
  §4.5, systems may create entities, add/remove components and request entity
  destruction during `update`; `Cmd.fail` models a system raising an error.
-/

/-! ### JS `Map` and `Set` models -/

/-- `Map.get`: value of the first (unique) entry with the given key. -/
def aGet {κ β : Type} [DecidableEq κ] (l : List (κ × β)) (k : κ) : Option β :=
  (l.find? (fun q => q.1 == k)).map (fun q => q.2)

/-- `Map.has`. -/
def aHas {κ β : Type} [DecidableEq κ] (l : List (κ × β)) (k : κ) : Bool :=
  (l.find? (fun q => q.1 == k)).isSome

/-- `Map.set`: overwrite in place if the key is present (its position is
kept), otherwise append. -/
def aSet {κ β : Type} [DecidableEq κ] (l : List (κ × β)) (k : κ) (v : β) :
    List (κ × β) :=
  if aHas l k then l.map (fun q => if q.1 = k then (k, v) else q) else l ++ [(k, v)]

/-- `Map.delete`. -/
def aDelete {κ β : Type} [DecidableEq κ] (l : List (κ × β)) (k : κ) :
    List (κ × β) :=
  l.filter (fun q => q.1 != k)

/-- The key list of a map, in insertion order. -/
def keysOf {κ β : Type} (l : List (κ × β)) : List κ :=
  l.map (fun q => q.1)

/-- JS `Set.add`: append if absent (insertion order preserved). -/
def setAdd (m : List Nat) (e : Nat) : List Nat :=
  if e ∈ m then m else m ++ [e]

/-- JS `Set.delete`. -/
def setDelete (m : List Nat) (e : Nat) : List Nat :=
  m.filter (fun x => x != e)

/-! ### The data model of the engine -/

/-- `Component<T>` from the source: a payload `data` tagged with its
component-type id `type`. -/
structure Component (α : Type) where
  data : α
  type : Nat
  deriving DecidableEq

/-- `System` from the source: its identity (JS object identity, modelled by an
id) and its declared `requiredComponents` set of component-type ids. -/
structure System where
  id : Nat
  requiredComponents : List Nat
  deriving DecidableEq

/-- A per-entity component store: `Map<ComponentType, Component>`.  The source
always uses `component.type` as the key. -/
abbrev Store (α : Type) : Type :=
  List (Nat × Component α)

/-- The membership test of `ECS.updateEntitySystems` (source lines 135–142):
the entity's component store has every type in `requiredComponents`. -/
def qualifies {α : Type} (cs : Store α) (s : System) : Bool :=
  s.requiredComponents.all (fun t => aHas cs t)

/-- The mutable state of an `ECS` instance (source lines 24–35). -/
structure ECS (α : Type) where
  systems : List (System × List Nat)
  entities : List (Nat × Store α)
  start : Int
  delta : Int
  nextEntityID : Nat
  entitiesToDestroy : List Nat
  deriving DecidableEq

/-- `new ECS()` at clock reading `t0` (`start = Date.now()`). -/
def initECS {α : Type} (t0 : Int) : ECS α :=
  { systems := [], entities := [], start := t0, delta := 0, nextEntityID := 0,
    entitiesToDestroy := [] }

/-- The error kinds of the engine (spec §7); `systemError` stands for an
arbitrary error raised by a system's own code. -/
inductive Err where
  | unknownEntity (e : Nat)
  | missingComponent (e : Nat) (t : Nat)
  | systemError
  deriving DecidableEq

/-! ### The API operations -/

/-- `ECS.addEntity` (source lines 47–51): allocate a fresh id, install an
empty component store, return the id. -/
def ECS.addEntity {α : Type} (st : ECS α) : Nat × ECS α :=
  (st.nextEntityID,
   { st with entities := aSet st.entities st.nextEntityID []
           , nextEntityID := st.nextEntityID + 1 })

/-- `ECS.removeEntity` (source lines 53–55): push onto the destroy queue. -/
def ECS.removeEntity {α : Type} (e : Nat) (st : ECS α) : ECS α :=
  { st with entitiesToDestroy := st.entitiesToDestroy ++ [e] }

/-- `ECS.getComponents` (source lines 68–76). -/
def ECS.getComponents {α : Type} (st : ECS α) (e : Nat) : Except Err (Store α) :=
  match aGet st.entities e with
  | none => Except.error (Err.unknownEntity e)
  | some cs => Except.ok cs

/-- `ECS.getComponent` (source lines 78–91); a `ComponentCreator` is consumed
only through `.type`, so the type id `t` is passed directly. -/
def ECS.getComponent {α : Type} (st : ECS α) (e : Nat) (t : Nat) : Except Err α :=
  match st.getComponents e with
  | Except.error er => Except.error er
  | Except.ok cs =>
    match aGet cs t with
    | none => Except.error (Err.missingComponent e t)
    | some c => Except.ok c.data

/-- The loop of `ECS.updateEntitySystems` (source lines 131–150) over every
registered system, for entity `e` whose component store is `cs`: add `e` to
the membership of each system it qualifies for, remove it from the others. -/
def recomputeMembership {α : Type} (e : Nat) (cs : Store α)
    (ss : List (System × List Nat)) : List (System × List Nat) :=
  ss.map (fun p => if qualifies cs p.1 then (p.1, setAdd p.2 e) else (p.1, setDelete p.2 e))

/-- `ECS.updateEntitySystems` (source lines 130–151).  The source calls
`getComponents(entity)` inside the per-system loop, before mutating that
system's membership: with zero systems nothing happens, and otherwise an
unknown entity throws on the first iteration before any mutation; the entity's
store does not change during the loop, so one lookup is equivalent. -/
def ECS.updateEntitySystems {α : Type} (e : Nat) (st : ECS α) : Except Err (ECS α) :=
  if st.systems.isEmpty then Except.ok st
  else
    match aGet st.entities e with
    | none => Except.error (Err.unknownEntity e)
    | some cs => Except.ok { st with systems := recomputeMembership e cs st.systems }

/-- `ECS.addComponent` (source lines 58–61): `getComponents(entity).set(...)`
mutates the entity's store in place (key `component.type`), then membership is
recomputed for that entity. -/
def ECS.addComponent {α : Type} (e : Nat) (c : Component α) (st : ECS α) :
    Except Err (ECS α) :=
  match aGet st.entities e with
  | none => Except.error (Err.unknownEntity e)
  | some cs =>
    ECS.updateEntitySystems e { st with entities := aSet st.entities e (aSet cs c.type c) }

/-- `ECS.removeComponent` (source lines 63–66); the source takes a `Component`
and uses only `component.type`, so the type id `t` is passed directly. -/
def ECS.removeComponent {α : Type} (e : Nat) (t : Nat) (st : ECS α) :
    Except Err (ECS α) :=
  match aGet st.entities e with
  | none => Except.error (Err.unknownEntity e)
  | some cs =>
    ECS.updateEntitySystems e { st with entities := aSet st.entities e (aDelete cs t) }

/-- `ECS.addSystem` (source lines 94–100): `systems.set(system, new Set())`
then `updateEntitySystems(entity)` for every registered entity.  Each of those
calls reads the (unchanged) entity registry and recomputes every system's
membership for that entity, which is the fold below. -/
def ECS.addSystem {α : Type} (s : System) (st : ECS α) : ECS α :=
  { st with systems :=
      st.entities.foldl (fun ss q => recomputeMembership q.1 q.2 ss) (aSet st.systems s []) }

/-- `ECS.removeSystem` (source lines 102–104). -/
def ECS.removeSystem {α : Type} (s : System) (st : ECS α) : ECS α :=
  { st with systems := aDelete st.systems s }

/-- `ECS.destroyEntity` (source lines 123–128): delete from the registry and
from every membership set. -/
def ECS.destroyEntity {α : Type} (e : Nat) (st : ECS α) : ECS α :=
  { st with entities := aDelete st.entities e
          , systems := st.systems.map (fun p => (p.1, setDelete p.2 e)) }

/-- The destroy-flush at the end of `ECS.update` (source lines 115–119):
`destroyEntity` for every queued entity, then reset the queue. -/
def ECS.flushDestroyQueue {α : Type} (st : ECS α) : ECS α :=
  { (st.entitiesToDestroy.foldl (fun acc e => ECS.destroyEntity e acc) st) with
      entitiesToDestroy := [] }

/-! ### Systems as clients of the engine -/

/-- The public face of the engine handle that a system's `update` can read:
the component stores (via `getComponent`/`getComponents`) and `delta`.  The
destroy queue and the timing baseline are private fields of the class. -/
structure ECSView (α : Type) where
  entities : List (Nat × Store α)
  delta : Int

/-- Project the public view out of the state. -/
def ECS.view {α : Type} (st : ECS α) : ECSView α :=
  { entities := st.entities, delta := st.delta }

/-- The mutation API calls a system may perform during `update` (spec §4.5),
plus `fail`, which models the system raising an error of its own. -/
inductive Cmd (α : Type) where
  | createEntity : Cmd α
  | removeEntity (e : Nat) : Cmd α
  | addComponent (e : Nat) (c : Component α) : Cmd α
  | removeComponent (e : Nat) (t : Nat) : Cmd α
  | fail : Cmd α
  deriving DecidableEq

/-- Run one API call made by a system; a thrown error leaves the state as it
was at the point of the throw (the source's operations throw before mutating
anything). -/
def execCmd {α : Type} (c : Cmd α) (st : ECS α) : ECS α × Option Err :=
  match c with
  | Cmd.createEntity => (st.addEntity.2, none)
  | Cmd.removeEntity e => (ECS.removeEntity e st, none)
  | Cmd.addComponent e cp =>
    match ECS.addComponent e cp st with
    | Except.ok st' => (st', none)
    | Except.error er => (st, some er)
  | Cmd.removeComponent e t =>
    match ECS.removeComponent e t st with
    | Except.ok st' => (st', none)
    | Except.error er => (st, some er)
  | Cmd.fail => (st, some Err.systemError)

/-- Run a system's API calls in order, stopping at the first error. -/
def execCmds {α : Type} : List (Cmd α) → ECS α → ECS α × Option Err
  | [], st => (st, none)
  | c :: rest, st =>
    match execCmd c st with
    | (st', none) => execCmds rest st'
    | (st', some er) => (st', some er)

/-- A model of the `update` methods of the registered systems: given the
system, the membership set it is handed, and the public view of the engine,
the list of API calls it performs. -/
def Behavior (α : Type) : Type :=
  System → List Nat → ECSView α → List (Cmd α)

/-- The membership set handed to a system when it is invoked (`[]` when the
system is unregistered, a case the source never reaches). -/
def sysGetMem {α : Type} (st : ECS α) (s : System) : List Nat :=
  (aGet st.systems s).getD []

/-- The system loop of `ECS.update` (source lines 111–113) over a list of
systems: invoke each system once, in order, with its current membership set;
an error aborts the loop.  The returned list logs each invocation (which
system, and the membership set it received). -/
def runSystems {α : Type} (B : Behavior α) :
    List System → ECS α → ECS α × Option Err × List (System × List Nat)
  | [], st => (st, none, [])
  | s :: rest, st =>
    match execCmds (B s (sysGetMem st s) st.view) st with
    | (st', none) =>
      match runSystems B rest st' with
      | (st'', er, log) => (st'', er, (s, sysGetMem st s) :: log)
    | (st', some er) => (st', some er, [(s, sysGetMem st s)])

/-- The timing step of `ECS.update` (source lines 107–109). -/
def ECS.preUpdate {α : Type} (now : Int) (st : ECS α) : ECS α :=
  { st with delta := now - st.start, start := now }

/-- `ECS.update` (source lines 106–120) at clock reading `now`: set the frame
delta, run every registered system in registration order, then flush the
destroy queue — unless a system threw, in which case the error propagates and
no flush happens.  Systems do not register or unregister systems mid-update
(spec §4.5), so the registry iterated over is the one at entry. -/
def ECS.update {α : Type} (now : Int) (B : Behavior α) (st : ECS α) :
    ECS α × Option Err × List (System × List Nat) :=
  match runSystems B (keysOf st.systems) (ECS.preUpdate now st) with
  | (st2, none, log) => (ECS.flushDestroyQueue st2, none, log)
  | (st2, some er, log) => (st2, some er, log)

/-! ### The engine invariant and reachable states -/

/-- Does entity `e` exist and qualify for system `s` in state `st`? -/
def qualifiesAtB {α : Type} (st : ECS α) (e : Nat) (s : System) : Bool :=
  match aGet st.entities e with
  | some cs => qualifies cs s
  | none => false

/-- Soundness of the membership sets: every member of a system's membership
set is a registered entity that qualifies for the system. -/
def MemSound {α : Type} (st : ECS α) : Prop :=
  ∀ p ∈ st.systems, ∀ e ∈ p.2, qualifiesAtB st e p.1 = true

/-- Completeness of the membership sets for entities owning at least one
component: any such entity qualifying for a registered system is a member. -/
def MemComplete {α : Type} (st : ECS α) : Prop :=
  ∀ p ∈ st.systems, ∀ q ∈ st.entities,
    q.2.isEmpty = false → qualifies q.2 p.1 = true → q.1 ∈ p.2

/-- Registered entity ids are below the id allocator. -/
def KeyBound {α : Type} (st : ECS α) : Prop :=
  ∀ q ∈ st.entities, q.1 < st.nextEntityID

/-- The engine invariant maintained by every API operation. -/
def EngineInv {α : Type} (st : ECS α) : Prop :=
  (keysOf st.entities).Nodup ∧ (keysOf st.systems).Nodup ∧
    KeyBound st ∧ MemSound st ∧ MemComplete st

instance {α : Type} [DecidableEq α] (st : ECS α) : Decidable (EngineInv st) := by
  unfold EngineInv KeyBound MemSound MemComplete
  infer_instance

/-- The states an engine can actually be in: everything generated from
`new ECS()` by the public API. -/
inductive Reachable {α : Type} : ECS α → Prop where
  | init (t0 : Int) : Reachable (initECS t0)
  | addEntity {st : ECS α} : Reachable st → Reachable st.addEntity.2
  | removeEntity {st : ECS α} (e : Nat) : Reachable st → Reachable (ECS.removeEntity e st)
  | addComponent {st st' : ECS α} {e : Nat} {c : Component α} :
      Reachable st → ECS.addComponent e c st = Except.ok st' → Reachable st'
  | removeComponent {st st' : ECS α} {e t : Nat} :
      Reachable st → ECS.removeComponent e t st = Except.ok st' → Reachable st'
  | addSystem {st : ECS α} (s : System) : Reachable st → Reachable (ECS.addSystem s st)
  | removeSystem {st : ECS α} (s : System) : Reachable st → Reachable (ECS.removeSystem s st)
  | update {st : ECS α} (now : Int) (B : Behavior α) :
      Reachable st → Reachable (ECS.update now B st).1

/-! ### Lemmas: the `Set` model -/

theorem mem_setAdd {m : List Nat} {e x : Nat} : x ∈ setAdd m e ↔ x ∈ m ∨ x = e := by
  unfold setAdd
  by_cases h : e ∈ m
  · rw [if_pos h]
    exact ⟨Or.inl, fun hx => hx.elim id (fun hx => hx ▸ h)⟩
  · rw [if_neg h]
    simp

theorem self_mem_setAdd {m : List Nat} {e : Nat} : e ∈ setAdd m e :=
  mem_setAdd.mpr (Or.inr rfl)

theorem mem_setDelete {m : List Nat} {e x : Nat} : x ∈ setDelete m e ↔ x ∈ m ∧ x ≠ e := by
  simp [setDelete, List.mem_filter, bne_iff_ne]

theorem not_mem_setDelete_self {m : List Nat} {e : Nat} : e ∉ setDelete m e := by
  simp [mem_setDelete]

/-! ### Lemmas: the `Map` model -/

theorem aHas_eq_isSome {κ β : Type} [DecidableEq κ] {l : List (κ × β)} {k : κ} :
    aHas l k = (aGet l k).isSome := by
  cases h : l.find? (fun q => q.1 == k) <;> simp [aHas, aGet, h]

theorem aGet_cons {κ β : Type} [DecidableEq κ] {q : κ × β} {l : List (κ × β)} {k : κ} :
    aGet (q :: l) k = if q.1 = k then some q.2 else aGet l k := by
  by_cases h : q.1 = k
  · rw [if_pos h]; unfold aGet; rw [List.find?_cons_of_pos _ (by simp [h])]; rfl
  · rw [if_neg h]; unfold aGet; rw [List.find?_cons_of_neg _ (by simp [h])]

theorem aHas_cons {κ β : Type} [DecidableEq κ] {q : κ × β} {l : List (κ × β)} {k : κ} :
    aHas (q :: l) k = if q.1 = k then true else aHas l k := by
  rw [aHas_eq_isSome, aHas_eq_isSome, aGet_cons]
  by_cases h : q.1 = k
  · rw [if_pos h, if_pos h]; rfl
  · rw [if_neg h, if_neg h]

theorem aGet_append {κ β : Type} [DecidableEq κ] {l1 l2 : List (κ × β)} {k : κ} :
    aGet (l1 ++ l2) k = if aHas l1 k then aGet l1 k else aGet l2 k := by
  unfold aGet aHas
  rw [List.find?_append]
  cases h : l1.find? (fun q => q.1 == k) <;> simp [h]

theorem aGet_map_overwrite {κ β : Type} [DecidableEq κ] {l : List (κ × β)} {k : κ} {v : β}
    (h : aHas l k = true) :
    aGet (l.map (fun q => if q.1 = k then (k, v) else q)) k = some v := by
  induction l with
  | nil => simp [aHas] at h
  | cons q l ih =>
    rw [List.map_cons]
    by_cases hq : q.1 = k
    · rw [if_pos hq, aGet_cons, if_pos rfl]
    · rw [aHas_cons, if_neg hq] at h
      rw [if_neg hq, aGet_cons, if_neg hq]
      exact ih h

theorem aGet_map_overwrite_ne {κ β : Type} [DecidableEq κ] {l : List (κ × β)}
    {k k' : κ} {v : β} (h : k' ≠ k) :
    aGet (l.map (fun q => if q.1 = k then (k, v) else q)) k' = aGet l k' := by
  induction l with
  | nil => rfl
  | cons q l ih =>
    rw [List.map_cons]
    by_cases hq : q.1 = k
    · rw [if_pos hq, aGet_cons, aGet_cons,
        if_neg (show ((k, v) : κ × β).1 ≠ k' from fun hk => h hk.symm),
        if_neg (show q.1 ≠ k' from fun hk => h (hq ▸ hk).symm)]
      exact ih
    · rw [if_neg hq, aGet_cons, aGet_cons]
      by_cases hq' : q.1 = k'
      · rw [if_pos hq', if_pos hq']
      · rw [if_neg hq', if_neg hq']
        exact ih

theorem aGet_aSet_self {κ β : Type} [DecidableEq κ] {l : List (κ × β)} {k : κ} {v : β} :
    aGet (aSet l k v) k = some v := by
  unfold aSet
  by_cases h : aHas l k = true
  · rw [if_pos h]
    exact aGet_map_overwrite h
  · rw [if_neg h, aGet_append, if_neg h, aGet_cons, if_pos rfl]

theorem aGet_aSet_ne {κ β : Type} [DecidableEq κ] {l : List (κ × β)} {k k' : κ} {v : β}
    (h : k' ≠ k) : aGet (aSet l k v) k' = aGet l k' := by
  unfold aSet
  by_cases hh : aHas l k = true
  · rw [if_pos hh]
    exact aGet_map_overwrite_ne h
  · rw [if_neg hh, aGet_append]
    by_cases h2 : aHas l k' = true
    · rw [if_pos h2]
    · rw [if_neg h2, aGet_cons, if_neg (fun hk => h hk.symm)]
      rw [Bool.not_eq_true, aHas_eq_isSome] at h2
      cases hg : aGet l k' with
      | none => rfl
      | some _ => rw [hg] at h2; simp at h2

theorem aGet_aDelete_self {κ β : Type} [DecidableEq κ] {l : List (κ × β)} {k : κ} :
    aGet (aDelete l k) k = none := by
  unfold aDelete
  induction l with
  | nil => rfl
  | cons q l ih =>
    rw [List.filter_cons]
    by_cases hq : q.1 = k
    · rw [if_neg (by simp [hq])]
      exact ih
    · rw [if_pos (by simp [hq]), aGet_cons, if_neg hq]
      exact ih

theorem aGet_aDelete_ne {κ β : Type} [DecidableEq κ] {l : List (κ × β)} {k k' : κ}
    (h : k' ≠ k) : aGet (aDelete l k) k' = aGet l k' := by
  unfold aDelete
  induction l with
  | nil => rfl
  | cons q l ih =>
    rw [List.filter_cons]
    by_cases hq : q.1 = k
    · rw [if_neg (by simp [hq]), aGet_cons, if_neg (fun hk => h (hq.symm.trans hk).symm)]
      exact ih
    · rw [if_pos (by simp [hq]), aGet_cons, aGet_cons]
      by_cases hq' : q.1 = k'
      · rw [if_pos hq', if_pos hq']
      · rw [if_neg hq', if_neg hq']
        exact ih

theorem mem_aDelete {κ β : Type} [DecidableEq κ] {l : List (κ × β)} {k : κ} {q : κ × β} :
    q ∈ aDelete l k ↔ q ∈ l ∧ q.1 ≠ k := by
  simp [aDelete, List.mem_filter, bne_iff_ne]

theorem exists_of_aHas {κ β : Type} [DecidableEq κ] {l : List (κ × β)} {k : κ}
    (h : aHas l k = true) : ∃ v0, (k, v0) ∈ l := by
  unfold aHas at h
  cases hf : l.find? (fun q => q.1 == k) with
  | none => rw [hf] at h; simp at h
  | some q0 =>
    have hm := List.mem_of_find?_eq_some hf
    have hp := List.find?_some hf
    simp only [beq_iff_eq] at hp
    exact ⟨q0.2, by rw [← hp]; simpa using hm⟩

theorem aHas_of_mem {κ β : Type} [DecidableEq κ] {l : List (κ × β)} {q : κ × β}
    (h : q ∈ l) : aHas l q.1 = true := by
  cases hf : l.find? (fun x => x.1 == q.1) with
  | some _ => simp [aHas, hf]
  | none => exact absurd (List.find?_eq_none.mp hf q h) (by simp)

theorem mem_aSet {κ β : Type} [DecidableEq κ] {l : List (κ × β)} {k : κ} {v : β}
    {q : κ × β} (h : aHas l k = true) :
    q ∈ aSet l k v ↔ q = (k, v) ∨ (q ∈ l ∧ q.1 ≠ k) := by
  unfold aSet
  rw [if_pos h]
  simp only [List.mem_map]
  constructor
  · rintro ⟨q0, hq0, heq⟩
    by_cases hk : q0.1 = k
    · rw [if_pos hk] at heq
      exact Or.inl heq.symm
    · rw [if_neg hk] at heq
      exact Or.inr ⟨heq ▸ hq0, heq ▸ hk⟩
  · rintro (rfl | ⟨hql, hqk⟩)
    · obtain ⟨v0, hv0⟩ := exists_of_aHas h
      exact ⟨(k, v0), hv0, by rw [if_pos rfl]⟩
    · exact ⟨q, hql, by rw [if_neg hqk]⟩

theorem keysOf_aSet_of_has {κ β : Type} [DecidableEq κ] {l : List (κ × β)} {k : κ} {v : β}
    (h : aHas l k = true) : keysOf (aSet l k v) = keysOf l := by
  unfold aSet keysOf
  rw [if_pos h, List.map_map]
  apply List.map_congr_left
  intro q _
  by_cases hq : q.1 = k <;> simp [Function.comp, hq]

theorem keysOf_aSet_of_not_has {κ β : Type} [DecidableEq κ] {l : List (κ × β)} {k : κ}
    {v : β} (h : aHas l k = false) : keysOf (aSet l k v) = keysOf l ++ [k] := by
  unfold aSet keysOf
  rw [if_neg (by simp [h]), List.map_append]
  rfl

theorem aGet_of_mem_nodup {κ β : Type} [DecidableEq κ] {l : List (κ × β)} {q : κ × β}
    (hnd : (keysOf l).Nodup) (hq : q ∈ l) : aGet l q.1 = some q.2 := by
  induction l with
  | nil => cases hq
  | cons q0 l ih =>
    rw [keysOf, List.map_cons, List.nodup_cons] at hnd
    rcases List.mem_cons.mp hq with rfl | hq'
    · rw [aGet_cons, if_pos rfl]
    · rw [aGet_cons, if_neg]
      · exact ih hnd.2 hq'
      · intro hk
        exact hnd.1 (hk ▸ List.mem_map_of_mem (fun x => x.1) hq')

theorem mem_of_aGet_eq_some {κ β : Type} [DecidableEq κ] {l : List (κ × β)} {k : κ} {v : β}
    (h : aGet l k = some v) : (k, v) ∈ l := by
  unfold aGet at h
  cases hf : l.find? (fun q => q.1 == k) with
  | none => rw [hf] at h; cases h
  | some q0 =>
    rw [hf] at h
    have hm := List.mem_of_find?_eq_some hf
    have hp := List.find?_some hf
    simp only [beq_iff_eq] at hp
    simp only [Option.map_some'] at h
    rw [← hp, ← Option.some.injEq .. |>.mp h]
    simpa using hm

theorem aGet_eq_none_of_not_has {κ β : Type} [DecidableEq κ] {l : List (κ × β)} {k : κ}
    (h : aHas l k = false) : aGet l k = none := by
  rw [aHas_eq_isSome] at h
  cases hg : aGet l k with
  | none => rfl
  | some _ => rw [hg] at h; simp at h

theorem aHas_eq_false_of_forall {κ β : Type} [DecidableEq κ] {l : List (κ × β)} {k : κ}
    (h : ∀ q ∈ l, q.1 ≠ k) : aHas l k = false := by
  unfold aHas
  rw [List.find?_eq_none.mpr (fun q hq => by simpa using h q hq)]
  rfl

theorem mem_keysOf_of_aHas {κ β : Type} [DecidableEq κ] {l : List (κ × β)} {k : κ}
    (h : aHas l k = true) : k ∈ keysOf l := by
  obtain ⟨v0, hv0⟩ := exists_of_aHas h
  exact List.mem_map.mpr ⟨(k, v0), hv0, rfl⟩

theorem not_mem_keysOf_of_not_has {κ β : Type} [DecidableEq κ] {l : List (κ × β)} {k : κ}
    (h : aHas l k = false) : k ∉ keysOf l := by
  intro hmem
  obtain ⟨q, hq, hq1⟩ := List.mem_map.mp hmem
  have := aHas_of_mem hq
  rw [hq1, h] at this
  cases this

theorem mem_aSet_of_not_has {κ β : Type} [DecidableEq κ] {l : List (κ × β)} {k : κ}
    {v : β} {q : κ × β} (h : aHas l k = false) :
    q ∈ aSet l k v ↔ q ∈ l ∨ q = (k, v) := by
  unfold aSet
  rw [if_neg (by simp [h])]
  simp

theorem mem_aSet_weak {κ β : Type} [DecidableEq κ] {l : List (κ × β)} {k : κ} {v : β}
    {q : κ × β} (h : q ∈ aSet l k v) : q = (k, v) ∨ q ∈ l := by
  unfold aSet at h
  by_cases hh : aHas l k = true
  · rw [if_pos hh] at h
    obtain ⟨q0, hq0, heq⟩ := List.mem_map.mp h
    by_cases hk : q0.1 = k
    · rw [if_pos hk] at heq
      exact Or.inl heq.symm
    · rw [if_neg hk] at heq
      exact Or.inr (heq ▸ hq0)
  · rw [if_neg hh] at h
    rcases List.mem_append.mp h with h' | h'
    · exact Or.inr h'
    · exact Or.inl (List.mem_singleton.mp h')

theorem keysOf_map_snd {κ β γ : Type} (l : List (κ × β)) (F : κ → β → γ) :
    keysOf (l.map (fun p => (p.1, F p.1 p.2))) = keysOf l := by
  unfold keysOf
  rw [List.map_map]
  rfl

theorem keysOf_aDelete_sublist {κ β : Type} [DecidableEq κ] {l : List (κ × β)} {k : κ} :
    (keysOf (aDelete l k)).Sublist (keysOf l) := by
  unfold keysOf aDelete
  exact (List.filter_sublist l).map (fun q => q.1)

/-! ### Lemmas: membership recomputation -/

theorem recompute_eq_map {α : Type} {e : Nat} {cs : Store α} {ss : List (System × List Nat)} :
    recomputeMembership e cs ss
      = ss.map (fun p => (p.1, if qualifies cs p.1 then setAdd p.2 e else setDelete p.2 e)) := by
  unfold recomputeMembership
  apply List.map_congr_left
  intro p _
  by_cases h : qualifies cs p.1 = true <;> simp [h]

theorem keysOf_recomputeMembership {α : Type} {e : Nat} {cs : Store α}
    {ss : List (System × List Nat)} :
    keysOf (recomputeMembership e cs ss) = keysOf ss := by
  rw [recompute_eq_map]
  exact keysOf_map_snd ss (fun k v => if qualifies cs k then setAdd v e else setDelete v e)

/-- The state produced by a successful `addComponent`/`removeComponent` on a
registered entity `e`, whose store becomes `cs'`. -/
def recomputedState {α : Type} (st : ECS α) (e : Nat) (cs' : Store α) : ECS α :=
  { st with entities := aSet st.entities e cs'
          , systems := recomputeMembership e cs' st.systems }

theorem addComponent_ok {α : Type} {st : ECS α} {e : Nat} {c : Component α} {cs : Store α}
    (hget : aGet st.entities e = some cs) :
    ECS.addComponent e c st = Except.ok (recomputedState st e (aSet cs c.type c)) := by
  unfold ECS.addComponent
  rw [hget]
  unfold ECS.updateEntitySystems
  dsimp only
  rw [aGet_aSet_self]
  by_cases hemp : st.systems.isEmpty = true
  · rw [if_pos hemp]
    have h0 : st.systems = [] := by
      cases h' : st.systems
      · rfl
      · rw [h'] at hemp; cases hemp
    unfold recomputedState
    rw [h0]
    simp [recomputeMembership]
  · rw [if_neg hemp]
    rfl

theorem removeComponent_ok {α : Type} {st : ECS α} {e t : Nat} {cs : Store α}
    (hget : aGet st.entities e = some cs) :
    ECS.removeComponent e t st = Except.ok (recomputedState st e (aDelete cs t)) := by
  unfold ECS.removeComponent
  rw [hget]
  unfold ECS.updateEntitySystems
  dsimp only
  rw [aGet_aSet_self]
  by_cases hemp : st.systems.isEmpty = true
  · rw [if_pos hemp]
    have h0 : st.systems = [] := by
      cases h' : st.systems
      · rfl
      · rw [h'] at hemp; cases hemp
    unfold recomputedState
    rw [h0]
    simp [recomputeMembership]
  · rw [if_neg hemp]
    rfl

/-! ### Lemmas: the engine invariant is preserved by every operation -/

theorem qualifiesAtB_true_iff {α : Type} {st : ECS α} {e : Nat} {s : System} :
    qualifiesAtB st e s = true ↔
      ∃ cs, aGet st.entities e = some cs ∧ qualifies cs s = true := by
  unfold qualifiesAtB
  cases h : aGet st.entities e <;> simp

theorem addComponent_error {α : Type} {st : ECS α} {e : Nat} {c : Component α}
    (hget : aGet st.entities e = none) :
    ECS.addComponent e c st = Except.error (Err.unknownEntity e) := by
  unfold ECS.addComponent
  rw [hget]

theorem removeComponent_error {α : Type} {st : ECS α} {e t : Nat}
    (hget : aGet st.entities e = none) :
    ECS.removeComponent e t st = Except.error (Err.unknownEntity e) := by
  unfold ECS.removeComponent
  rw [hget]

theorem engineInv_recomputedState {α : Type} {st : ECS α} {e : Nat} {cs cs' : Store α}
    (h : EngineInv st) (hget : aGet st.entities e = some cs) :
    EngineInv (recomputedState st e cs') := by
  obtain ⟨hnd, hsnd, hkb, hsound, hcomp⟩ := h
  have hhase : aHas st.entities e = true := by rw [aHas_eq_isSome, hget]; rfl
  unfold recomputedState
  refine ⟨?_, ?_, ?_, ?_, ?_⟩
  · dsimp only
    rw [keysOf_aSet_of_has hhase]
    exact hnd
  · dsimp only
    rw [keysOf_recomputeMembership]
    exact hsnd
  · intro q hq
    dsimp only at hq ⊢
    rcases (mem_aSet hhase).mp hq with rfl | ⟨hql, _⟩
    · obtain ⟨v0, hv0⟩ := exists_of_aHas hhase
      exact hkb (e, v0) hv0
    · exact hkb q hql
  · intro p' hp' x hx
    dsimp only at hp' ⊢
    rw [recompute_eq_map] at hp'
    obtain ⟨p, hp, rfl⟩ := List.mem_map.mp hp'
    dsimp only at hx
    rw [qualifiesAtB_true_iff]
    dsimp only
    by_cases hqual : qualifies cs' p.1 = true
    · rw [if_pos hqual] at hx
      rcases mem_setAdd.mp hx with hxm | rfl
      · by_cases hxe : x = e
        · subst hxe
          exact ⟨cs', aGet_aSet_self, hqual⟩
        · have := hsound p hp x hxm
          rw [qualifiesAtB_true_iff] at this
          obtain ⟨csx, hcsx, hqx⟩ := this
          exact ⟨csx, by rw [aGet_aSet_ne hxe]; exact hcsx, hqx⟩
      · exact ⟨cs', aGet_aSet_self, hqual⟩
    · rw [if_neg hqual] at hx
      obtain ⟨hxm, hxe⟩ := mem_setDelete.mp hx
      have := hsound p hp x hxm
      rw [qualifiesAtB_true_iff] at this
      obtain ⟨csx, hcsx, hqx⟩ := this
      exact ⟨csx, by rw [aGet_aSet_ne hxe]; exact hcsx, hqx⟩
  · intro p' hp' q hq hne hqual
    dsimp only at hp' hq ⊢
    rw [recompute_eq_map] at hp'
    obtain ⟨p, hp, rfl⟩ := List.mem_map.mp hp'
    dsimp only at hqual ⊢
    rcases (mem_aSet hhase).mp hq with rfl | ⟨hql, hqk⟩
    · dsimp only at hqual
      rw [if_pos hqual]
      exact self_mem_setAdd
    · have hmem := hcomp p hp q hql hne hqual
      by_cases hq2 : qualifies cs' p.1 = true
      · rw [if_pos hq2]
        exact mem_setAdd.mpr (Or.inl hmem)
      · rw [if_neg hq2]
        exact mem_setDelete.mpr ⟨hmem, hqk⟩

theorem engineInv_addEntity {α : Type} {st : ECS α} (h : EngineInv st) :
    EngineInv st.addEntity.2 := by
  obtain ⟨hnd, hsnd, hkb, hsound, hcomp⟩ := h
  have hfresh : aHas st.entities st.nextEntityID = false :=
    aHas_eq_false_of_forall (fun q hq => Nat.ne_of_lt (hkb q hq))
  unfold ECS.addEntity
  refine ⟨?_, hsnd, ?_, ?_, ?_⟩
  · dsimp only
    rw [keysOf_aSet_of_not_has hfresh, List.nodup_append]
    refine ⟨hnd, List.nodup_singleton _, ?_⟩
    intro a ha hb
    rw [List.mem_singleton] at hb
    exact not_mem_keysOf_of_not_has hfresh (hb ▸ ha)
  · intro q hq
    dsimp only at hq ⊢
    rcases (mem_aSet_of_not_has hfresh).mp hq with hql | rfl
    · exact Nat.lt_succ_of_lt (hkb q hql)
    · exact Nat.lt_succ_self _
  · intro p hp x hx
    dsimp only at hp hx ⊢
    have hs := hsound p hp x hx
    rw [qualifiesAtB_true_iff] at hs ⊢
    obtain ⟨csx, hcsx, hq⟩ := hs
    have hxne : x ≠ st.nextEntityID := by
      intro hx'
      rw [hx', aGet_eq_none_of_not_has hfresh] at hcsx
      cases hcsx
    refine ⟨csx, ?_, hq⟩
    dsimp only
    rw [aGet_aSet_ne hxne]
    exact hcsx
  · intro p hp q hq hne hqual
    dsimp only at hp hq ⊢
    rcases (mem_aSet_of_not_has hfresh).mp hq with hql | rfl
    · exact hcomp p hp q hql hne hqual
    · simp at hne

/-- The membership set of one system after the full entity scan performed by
`ECS.addSystem`. -/
def recomputeFold {α : Type} (s : System) (L : List (Nat × Store α)) (m : List Nat) :
    List Nat :=
  L.foldl (fun m q => if qualifies q.2 s then setAdd m q.1 else setDelete m q.1) m

theorem recomputeFold_cons {α : Type} {s : System} {q : Nat × Store α}
    {L : List (Nat × Store α)} {m : List Nat} :
    recomputeFold s (q :: L) m
      = recomputeFold s L (if qualifies q.2 s then setAdd m q.1 else setDelete m q.1) := rfl

theorem foldRecompute_eq {α : Type} (L : List (Nat × Store α))
    (ss : List (System × List Nat)) :
    L.foldl (fun ss q => recomputeMembership q.1 q.2 ss) ss
      = ss.map (fun p => (p.1, recomputeFold p.1 L p.2)) := by
  induction L generalizing ss with
  | nil =>
    rw [List.foldl_nil]
    have he : (fun (p : System × List Nat) =>
        (p.1, recomputeFold p.1 ([] : List (Nat × Store α)) p.2)) = fun p => p := by
      funext p
      rfl
    rw [he, List.map_id']
  | cons q L ih =>
    rw [List.foldl_cons, ih, recompute_eq_map, List.map_map]
    apply List.map_congr_left
    intro p _
    rfl

theorem mem_recomputeFold_notfound {α : Type} {s : System} {L : List (Nat × Store α)}
    {m : List Nat} {x : Nat} (hget : aGet L x = none) :
    x ∈ recomputeFold s L m ↔ x ∈ m := by
  induction L generalizing m with
  | nil => exact Iff.rfl
  | cons q L ih =>
    rw [aGet_cons] at hget
    by_cases hx : q.1 = x
    · rw [if_pos hx] at hget
      cases hget
    · rw [if_neg hx] at hget
      rw [recomputeFold_cons, ih hget]
      by_cases hqual : qualifies q.2 s = true
      · rw [if_pos hqual, mem_setAdd]
        constructor
        · rintro (hm | rfl)
          · exact hm
          · exact absurd rfl hx
        · exact Or.inl
      · rw [if_neg hqual, mem_setDelete]
        exact ⟨fun hm => hm.1, fun hm => ⟨hm, fun he => hx he.symm⟩⟩

theorem mem_recomputeFold_found {α : Type} {s : System} {L : List (Nat × Store α)}
    {m : List Nat} {x : Nat} {cs : Store α} (hnd : (keysOf L).Nodup)
    (hget : aGet L x = some cs) :
    x ∈ recomputeFold s L m ↔ qualifies cs s = true := by
  induction L generalizing m with
  | nil => cases hget
  | cons q L ih =>
    rw [keysOf, List.map_cons, List.nodup_cons] at hnd
    rw [aGet_cons] at hget
    rw [recomputeFold_cons]
    by_cases hx : q.1 = x
    · rw [if_pos hx] at hget
      injection hget with hcs
      subst hcs
      have hnone : aGet L x = none := by
        apply aGet_eq_none_of_not_has
        apply aHas_eq_false_of_forall
        intro q' hq' hq'1
        exact hnd.1 (hx ▸ hq'1 ▸ List.mem_map_of_mem (fun z => z.1) hq')
      rw [mem_recomputeFold_notfound hnone]
      by_cases hqual : qualifies q.2 s = true
      · rw [if_pos hqual]
        exact ⟨fun _ => hqual, fun _ => hx ▸ self_mem_setAdd⟩
      · rw [if_neg hqual]
        simp only [Bool.not_eq_true] at hqual
        rw [hqual]
        simp [mem_setDelete, hx]
    · rw [if_neg hx] at hget
      exact ih hnd.2 hget

theorem addSystem_systems_eq {α : Type} {s : System} {st : ECS α} :
    (ECS.addSystem s st).systems
      = (aSet st.systems s []).map (fun p => (p.1, recomputeFold p.1 st.entities p.2)) := by
  unfold ECS.addSystem
  dsimp only
  exact foldRecompute_eq _ _

theorem keysOf_addSystem_of_has {α : Type} {s : System} {st : ECS α}
    (h : aHas st.systems s = true) :
    keysOf (ECS.addSystem s st).systems = keysOf st.systems := by
  rw [addSystem_systems_eq, keysOf_map_snd _ (fun k v => recomputeFold k st.entities v),
    keysOf_aSet_of_has h]

theorem keysOf_addSystem_of_not_has {α : Type} {s : System} {st : ECS α}
    (h : aHas st.systems s = false) :
    keysOf (ECS.addSystem s st).systems = keysOf st.systems ++ [s] := by
  rw [addSystem_systems_eq, keysOf_map_snd _ (fun k v => recomputeFold k st.entities v),
    keysOf_aSet_of_not_has h]

theorem engineInv_addSystem {α : Type} {s : System} {st : ECS α} (h : EngineInv st) :
    EngineInv (ECS.addSystem s st) := by
  obtain ⟨hnd, hsnd, hkb, hsound, hcomp⟩ := h
  have hents : (ECS.addSystem s st).entities = st.entities := rfl
  refine ⟨?_, ?_, ?_, ?_, ?_⟩
  · rw [show keysOf (ECS.addSystem s st).entities = keysOf st.entities from rfl]
    exact hnd
  · by_cases hh : aHas st.systems s = true
    · rw [keysOf_addSystem_of_has hh]
      exact hsnd
    · rw [keysOf_addSystem_of_not_has (by simpa using hh), List.nodup_append]
      refine ⟨hsnd, List.nodup_singleton _, ?_⟩
      intro a ha hb
      rw [List.mem_singleton] at hb
      exact not_mem_keysOf_of_not_has (by simpa using hh) (hb ▸ ha)
  · intro q hq
    exact hkb q hq
  · intro p' hp' x hx
    rw [addSystem_systems_eq] at hp'
    obtain ⟨p, hp, rfl⟩ := List.mem_map.mp hp'
    dsimp only at hx
    rw [qualifiesAtB_true_iff]
    cases hg : aGet st.entities x with
    | some cs =>
      rw [mem_recomputeFold_found hnd hg] at hx
      exact ⟨cs, by rw [hents, hg], hx⟩
    | none =>
      rw [mem_recomputeFold_notfound hg] at hx
      rcases mem_aSet_weak hp with rfl | hpold
      · cases hx
      · have := hsound p hpold x hx
        rw [qualifiesAtB_true_iff] at this
        obtain ⟨csx, hcsx, _⟩ := this
        rw [hg] at hcsx
        cases hcsx
  · intro p' hp' q hq hne hqual
    rw [addSystem_systems_eq] at hp'
    obtain ⟨p, hp, rfl⟩ := List.mem_map.mp hp'
    dsimp only at hqual ⊢
    rw [hents] at hq
    rw [mem_recomputeFold_found hnd (aGet_of_mem_nodup hnd hq)]
    exact hqual

theorem engineInv_removeSystem {α : Type} {s : System} {st : ECS α} (h : EngineInv st) :
    EngineInv (ECS.removeSystem s st) := by
  obtain ⟨hnd, hsnd, hkb, hsound, hcomp⟩ := h
  refine ⟨hnd, ?_, hkb, ?_, ?_⟩
  · exact List.Nodup.sublist keysOf_aDelete_sublist hsnd
  · intro p hp x hx
    exact hsound p (mem_aDelete.mp hp).1 x hx
  · intro p hp q hq hne hqual
    exact hcomp p (mem_aDelete.mp hp).1 q hq hne hqual

theorem engineInv_destroyEntity {α : Type} {e : Nat} {st : ECS α} (h : EngineInv st) :
    EngineInv (ECS.destroyEntity e st) := by
  obtain ⟨hnd, hsnd, hkb, hsound, hcomp⟩ := h
  unfold ECS.destroyEntity
  refine ⟨?_, ?_, ?_, ?_, ?_⟩
  · dsimp only
    exact List.Nodup.sublist keysOf_aDelete_sublist hnd
  · dsimp only
    rw [keysOf_map_snd _ (fun k v => setDelete v e)]
    exact hsnd
  · intro q hq
    dsimp only at hq ⊢
    exact hkb q (mem_aDelete.mp hq).1
  · intro p' hp' x hx
    dsimp only at hp' ⊢
    obtain ⟨p, hp, rfl⟩ := List.mem_map.mp hp'
    dsimp only at hx
    obtain ⟨hxm, hxe⟩ := mem_setDelete.mp hx
    have := hsound p hp x hxm
    rw [qualifiesAtB_true_iff] at this ⊢
    obtain ⟨csx, hcsx, hqx⟩ := this
    exact ⟨csx, by dsimp only; rw [aGet_aDelete_ne hxe]; exact hcsx, hqx⟩
  · intro p' hp' q hq hne hqual
    dsimp only at hp' hq ⊢
    obtain ⟨p, hp, rfl⟩ := List.mem_map.mp hp'
    obtain ⟨hql, hqe⟩ := mem_aDelete.mp hq
    dsimp only at hqual ⊢
    exact mem_setDelete.mpr ⟨hcomp p hp q hql hne hqual, hqe⟩

theorem engineInv_foldDestroy {α : Type} {st : ECS α} (L : List Nat) (h : EngineInv st) :
    EngineInv (L.foldl (fun acc e => ECS.destroyEntity e acc) st) := by
  induction L generalizing st with
  | nil => exact h
  | cons e L ih =>
    rw [List.foldl_cons]
    exact ih (engineInv_destroyEntity h)

theorem engineInv_queue_irrelevant {α : Type} {st : ECS α} {q : List Nat}
    (h : EngineInv st) : EngineInv { st with entitiesToDestroy := q } := h

theorem engineInv_flush {α : Type} {st : ECS α} (h : EngineInv st) :
    EngineInv (ECS.flushDestroyQueue st) :=
  engineInv_queue_irrelevant (engineInv_foldDestroy _ h)

theorem engineInv_removeEntity {α : Type} {e : Nat} {st : ECS α} (h : EngineInv st) :
    EngineInv (ECS.removeEntity e st) := h

theorem engineInv_preUpdate {α : Type} {now : Int} {st : ECS α} (h : EngineInv st) :
    EngineInv (ECS.preUpdate now st) := h

theorem engineInv_execCmd {α : Type} {c : Cmd α} {st : ECS α} (h : EngineInv st) :
    EngineInv (execCmd c st).1 := by
  cases c with
  | createEntity => exact engineInv_addEntity h
  | removeEntity e => exact h
  | addComponent e cp =>
    cases hg : aGet st.entities e with
    | none =>
      rw [show execCmd (Cmd.addComponent e cp) st = (st, some (Err.unknownEntity e)) from by
        unfold execCmd; dsimp only; rw [addComponent_error hg]]
      exact h
    | some cs =>
      rw [show execCmd (Cmd.addComponent e cp) st
          = (recomputedState st e (aSet cs cp.type cp), none) from by
        unfold execCmd; dsimp only; rw [addComponent_ok hg]]
      exact engineInv_recomputedState h hg
  | removeComponent e t =>
    cases hg : aGet st.entities e with
    | none =>
      rw [show execCmd (Cmd.removeComponent e t) st = (st, some (Err.unknownEntity e)) from by
        unfold execCmd; dsimp only; rw [removeComponent_error hg]]
      exact h
    | some cs =>
      rw [show execCmd (Cmd.removeComponent e t) st
          = (recomputedState st e (aDelete cs t), none) from by
        unfold execCmd; dsimp only; rw [removeComponent_ok hg]]
      exact engineInv_recomputedState h hg
  | fail => exact h

theorem engineInv_execCmds {α : Type} {cmds : List (Cmd α)} {st : ECS α}
    (h : EngineInv st) : EngineInv (execCmds cmds st).1 := by
  induction cmds generalizing st with
  | nil => exact h
  | cons c rest ih =>
    have h1 : EngineInv (execCmd c st).1 := engineInv_execCmd h
    show EngineInv (execCmds (c :: rest) st).1
    rw [execCmds]
    cases he : execCmd c st with
    | mk st' oe =>
      rw [he] at h1
      cases oe with
      | none => exact ih h1
      | some er => exact h1

theorem engineInv_runSystems {α : Type} {B : Behavior α} {L : List System} {st : ECS α}
    (h : EngineInv st) : EngineInv (runSystems B L st).1 := by
  induction L generalizing st with
  | nil => exact h
  | cons s rest ih =>
    show EngineInv (runSystems B (s :: rest) st).1
    rw [runSystems]
    cases he : execCmds (B s (sysGetMem st s) st.view) st with
    | mk st' oe =>
      have h1 : EngineInv (execCmds (B s (sysGetMem st s) st.view) st).1 :=
        engineInv_execCmds h
      rw [he] at h1
      cases oe with
      | none =>
        dsimp only
        cases hr : runSystems B rest st' with
        | mk st'' rest2 =>
          have h2 := ih h1
          rw [hr] at h2
          obtain ⟨er, log⟩ := rest2
          exact h2
      | some er => exact h1

theorem engineInv_update {α : Type} {now : Int} {B : Behavior α} {st : ECS α}
    (h : EngineInv st) : EngineInv (ECS.update now B st).1 := by
  unfold ECS.update
  cases hr : runSystems B (keysOf st.systems) (ECS.preUpdate now st) with
  | mk st2 rest2 =>
    have h2 : EngineInv (runSystems B (keysOf st.systems) (ECS.preUpdate now st)).1 :=
      engineInv_runSystems (engineInv_preUpdate h)
    rw [hr] at h2
    obtain ⟨er, log⟩ := rest2
    cases er with
    | none => exact engineInv_flush h2
    | some er => exact h2

theorem engineInv_init {α : Type} {t0 : Int} : EngineInv (initECS t0 : ECS α) :=
  ⟨List.nodup_nil, List.nodup_nil,
   fun q hq => absurd hq (List.not_mem_nil q),
   fun p hp => absurd hp (List.not_mem_nil p),
   fun p hp => absurd hp (List.not_mem_nil p)⟩

/-- Every reachable state of the engine satisfies the invariant. -/
theorem reachable_engineInv {α : Type} {st : ECS α} (h : Reachable st) : EngineInv st := by
  induction h with
  | init t0 => exact engineInv_init
  | addEntity _ ih => exact engineInv_addEntity ih
  | removeEntity e _ ih => exact ih
  | @addComponent st st' e c _ hok ih =>
    cases hg : aGet st.entities e with
    | none => rw [addComponent_error hg] at hok; cases hok
    | some cs =>
      rw [addComponent_ok hg] at hok
      injection hok with h'
      exact h' ▸ engineInv_recomputedState ih hg
  | @removeComponent st st' e t _ hok ih =>
    cases hg : aGet st.entities e with
    | none => rw [removeComponent_error hg] at hok; cases hok
    | some cs =>
      rw [removeComponent_ok hg] at hok
      injection hok with h'
      exact h' ▸ engineInv_recomputedState ih hg
  | addSystem s _ ih => exact engineInv_addSystem ih
  | removeSystem s _ ih => exact engineInv_removeSystem ih
  | update now B _ ih => exact engineInv_update ih

/-! ### Claim C3 -/

/-- Claim C3: for every registered entity `e` and component `c`, `addComponent e c`
succeeds, and an immediately following `getComponent` for `c.type` (with no
intervening mutation) succeeds and returns `c`'s payload. -/
theorem addComponent_then_getComponent {α : Type} (st : ECS α) (e : Nat) (c : Component α)
    (h : aHas st.entities e = true) :
    ∃ st', ECS.addComponent e c st = Except.ok st'
      ∧ ECS.getComponent st' e c.type = Except.ok c.data := by
  rw [aHas_eq_isSome] at h
  cases hg : aGet st.entities e with
  | none => rw [hg] at h; cases h
  | some cs =>
    refine ⟨recomputedState st e (aSet cs c.type c), addComponent_ok hg, ?_⟩
    unfold ECS.getComponent ECS.getComponents
    rw [show (recomputedState st e (aSet cs c.type c)).entities
        = aSet st.entities e (aSet cs c.type c) from rfl]
    rw [aGet_aSet_self]
    dsimp only
    rw [aGet_aSet_self]

/-- Witness for C3 at a concrete engine state. -/
theorem addComponent_then_getComponent_witness :
    aHas ((initECS 0 : ECS Nat).addEntity.2).entities 0 = true
  ∧ (∃ st', ECS.addComponent 0 (⟨7, 3⟩ : Component Nat) ((initECS 0 : ECS Nat).addEntity.2)
        = Except.ok st'
      ∧ ECS.getComponent st' 0 3 = Except.ok 7) :=
  ⟨by decide,
   addComponent_then_getComponent ((initECS 0 : ECS Nat).addEntity.2) 0 ⟨7, 3⟩ (by decide)⟩

/-! ### Claim C4 -/

/-- Claim C4: `addComponent`, `removeComponent`, `getComponents` and
`getComponent` fail with `UnknownEntity` exactly when the entity is not in the
registry; on a registered entity, `getComponent` fails with `MissingComponent`
exactly when the entity lacks a component of the requested type, and returns
the stored payload otherwise (the other three succeed). -/
theorem componentApi_error_contract {α : Type} (st : ECS α) (e t : Nat) (c : Component α) :
    (aHas st.entities e = false →
        ECS.getComponents st e = Except.error (Err.unknownEntity e)
      ∧ ECS.getComponent st e t = Except.error (Err.unknownEntity e)
      ∧ ECS.addComponent e c st = Except.error (Err.unknownEntity e)
      ∧ ECS.removeComponent e t st = Except.error (Err.unknownEntity e))
  ∧ (∀ cs, aGet st.entities e = some cs →
        ECS.getComponents st e = Except.ok cs
      ∧ (∃ st', ECS.addComponent e c st = Except.ok st')
      ∧ (∃ st', ECS.removeComponent e t st = Except.ok st')
      ∧ (aHas cs t = false →
          ECS.getComponent st e t = Except.error (Err.missingComponent e t))
      ∧ (∀ comp, aGet cs t = some comp → ECS.getComponent st e t = Except.ok comp.data)) := by
  constructor
  · intro h
    have hg : aGet st.entities e = none := aGet_eq_none_of_not_has h
    refine ⟨?_, ?_, addComponent_error hg, removeComponent_error hg⟩
    · unfold ECS.getComponents
      rw [hg]
    · unfold ECS.getComponent ECS.getComponents
      rw [hg]
  · intro cs hg
    refine ⟨?_, ⟨_, addComponent_ok hg⟩, ⟨_, removeComponent_ok hg⟩, ?_, ?_⟩
    · unfold ECS.getComponents
      rw [hg]
    · intro hmiss
      unfold ECS.getComponent ECS.getComponents
      rw [hg]
      dsimp only
      rw [aGet_eq_none_of_not_has hmiss]
    · intro comp hcomp
      unfold ECS.getComponent ECS.getComponents
      rw [hg]
      dsimp only
      rw [hcomp]

/-- A small concrete engine state for witnesses: entity `0` carries one
component of type `0` with payload `42`. -/
def witnessState : ECS Nat :=
  { systems := [], entities := [(0, [(0, ⟨42, 0⟩)])], start := 0, delta := 0,
    nextEntityID := 1, entitiesToDestroy := [] }

/-- Witness for C4: both error kinds and the success case, at concrete inputs. -/
theorem componentApi_error_contract_witness :
    aHas witnessState.entities 5 = false
  ∧ ECS.getComponent witnessState 5 0 = Except.error (Err.unknownEntity 5)
  ∧ ECS.getComponent witnessState 0 7 = Except.error (Err.missingComponent 0 7)
  ∧ ECS.getComponent witnessState 0 0 = Except.ok 42 :=
  ⟨by decide,
   ((componentApi_error_contract witnessState 5 0 ⟨1, 0⟩).1 (by decide)).2.1,
   (((componentApi_error_contract witnessState 0 7 ⟨1, 0⟩).2) [(0, ⟨42, 0⟩)]
      (by decide)).2.2.2.1 (by decide),
   (((componentApi_error_contract witnessState 0 0 ⟨1, 0⟩).2) [(0, ⟨42, 0⟩)]
      (by decide)).2.2.2.2 ⟨42, 0⟩ (by decide)⟩

/-! ### Claim C6 -/

theorem iterate_removeEntity {α : Type} {st : ECS α} {e : Nat} (n : Nat) :
    (ECS.removeEntity e)^[n] st
      = { st with entitiesToDestroy := st.entitiesToDestroy ++ List.replicate n e } := by
  induction n generalizing st with
  | zero => simp
  | succ n ih =>
    rw [Function.iterate_succ_apply, ih]
    unfold ECS.removeEntity
    dsimp only
    simp [List.replicate_succ, List.append_assoc]

theorem aDelete_idem {κ β : Type} [DecidableEq κ] {l : List (κ × β)} {k : κ} :
    aDelete (aDelete l k) k = aDelete l k := by
  unfold aDelete
  rw [List.filter_filter]
  apply List.filter_congr
  intro q _
  rw [Bool.and_self]

theorem setDelete_idem {m : List Nat} {e : Nat} :
    setDelete (setDelete m e) e = setDelete m e := by
  unfold setDelete
  rw [List.filter_filter]
  apply List.filter_congr
  intro x _
  rw [Bool.and_self]

theorem destroyEntity_idem {α : Type} {e : Nat} {st : ECS α} :
    ECS.destroyEntity e (ECS.destroyEntity e st) = ECS.destroyEntity e st := by
  unfold ECS.destroyEntity
  dsimp only
  rw [aDelete_idem, List.map_map]
  have hcomp : ((fun p : System × List Nat => (p.1, setDelete p.2 e))
        ∘ fun p : System × List Nat => (p.1, setDelete p.2 e))
      = fun p : System × List Nat => (p.1, setDelete p.2 e) := by
    funext p
    dsimp [Function.comp]
    rw [setDelete_idem]
  rw [hcomp]

theorem foldDestroy_queue {α : Type} (L : List Nat) (st : ECS α) (q : List Nat) :
    L.foldl (fun acc e => ECS.destroyEntity e acc) { st with entitiesToDestroy := q }
      = { L.foldl (fun acc e => ECS.destroyEntity e acc) st with entitiesToDestroy := q } := by
  induction L generalizing st with
  | nil => rfl
  | cons x L ih =>
    rw [List.foldl_cons, List.foldl_cons,
      show ECS.destroyEntity x { st with entitiesToDestroy := q }
        = { ECS.destroyEntity x st with entitiesToDestroy := q } from rfl]
    exact ih (ECS.destroyEntity x st)

theorem flush_eq {α : Type} (st : ECS α) (Q : List Nat) :
    ECS.flushDestroyQueue { st with entitiesToDestroy := Q }
      = { Q.foldl (fun acc e => ECS.destroyEntity e acc) st with entitiesToDestroy := [] } := by
  unfold ECS.flushDestroyQueue
  dsimp only
  rw [foldDestroy_queue]

theorem foldDestroy_replicate {α : Type} (n : Nat) (h : 1 ≤ n) (st : ECS α) (e : Nat) :
    (List.replicate n e).foldl (fun acc x => ECS.destroyEntity x acc) st
      = ECS.destroyEntity e st := by
  induction n generalizing st with
  | zero => cases h
  | succ n ih =>
    rw [List.replicate_succ, List.foldl_cons]
    by_cases hn : 1 ≤ n
    · rw [ih hn, destroyEntity_idem]
    · have hz : n = 0 := Nat.eq_zero_of_not_pos hn
      subst hz
      rfl

/-- Claim C6: requesting destruction of the same entity `n ≥ 1` times before
the flush produces, after the flush, exactly the same engine state (registry,
store, memberships, and an empty destroy queue) as requesting it once. -/
theorem removeEntity_idempotent {α : Type} (st : ECS α) (e : Nat) (n : Nat) (h : 1 ≤ n) :
    ECS.flushDestroyQueue ((ECS.removeEntity e)^[n] st)
      = ECS.flushDestroyQueue (ECS.removeEntity e st) := by
  rw [iterate_removeEntity n,
    show ECS.removeEntity e st
      = { st with entitiesToDestroy := st.entitiesToDestroy ++ [e] } from rfl,
    flush_eq, flush_eq, List.foldl_append, List.foldl_append,
    foldDestroy_replicate n h]
  rfl

/-- Witness for C6: two destruction requests at a concrete state. -/
theorem removeEntity_idempotent_witness :
    1 ≤ 2
  ∧ ECS.flushDestroyQueue ((ECS.removeEntity 0)^[2] witnessState)
      = ECS.flushDestroyQueue (ECS.removeEntity 0 witnessState) :=
  ⟨by decide, removeEntity_idempotent witnessState 0 2 (by decide)⟩

/-! ### Claim C9 -/

theorem aDelete_eq_self {κ β : Type} [DecidableEq κ] {l : List (κ × β)} {k : κ}
    (h : aHas l k = false) : aDelete l k = l := by
  unfold aDelete
  apply List.filter_eq_self.mpr
  intro q hq
  simp only [bne_iff_ne, ne_eq, decide_eq_true_eq]
  intro hk
  rw [← hk, aHas_of_mem hq] at h
  cases h

theorem setDelete_eq_self {m : List Nat} {e : Nat} (h : e ∉ m) : setDelete m e = m := by
  unfold setDelete
  apply List.filter_eq_self.mpr
  intro x hx
  simp only [bne_iff_ne, ne_eq, decide_eq_true_eq]
  intro hk
  exact h (hk ▸ hx)

/-- Destroying an entity that is not in the registry of an invariant-satisfying
state changes nothing: the registry deletion misses, and soundness says no
membership set can contain the entity. -/
theorem destroyEntity_noop {α : Type} {e : Nat} {st : ECS α} (hInv : EngineInv st)
    (h : aHas st.entities e = false) : ECS.destroyEntity e st = st := by
  unfold ECS.destroyEntity
  rw [aDelete_eq_self h]
  have hsys : st.systems.map (fun p => (p.1, setDelete p.2 e)) = st.systems := by
    conv_rhs => rw [← List.map_id st.systems]
    apply List.map_congr_left
    intro p hp
    have hmem : e ∉ p.2 := by
      intro hmem
      have hs := hInv.2.2.2.1 p hp e hmem
      rw [qualifiesAtB_true_iff] at hs
      obtain ⟨cs, hcs, _⟩ := hs
      rw [aGet_eq_none_of_not_has h] at hcs
      cases hcs
    rw [setDelete_eq_self hmem]
    rfl
  rw [hsys]

theorem aHas_foldDestroy_false {α : Type} (L : List Nat) {st : ECS α} {e : Nat}
    (h : aHas st.entities e = false) :
    aHas (L.foldl (fun acc x => ECS.destroyEntity x acc) st).entities e = false := by
  induction L generalizing st with
  | nil => exact h
  | cons x L ih =>
    rw [List.foldl_cons]
    apply ih
    show aHas (aDelete st.entities x) e = false
    rw [aHas_eq_isSome]
    by_cases hx : e = x
    · rw [hx, aGet_aDelete_self]
      rfl
    · rw [aGet_aDelete_ne hx, ← aHas_eq_isSome]
      exact h

/-- Claim C9: `removeEntity` never fails and only appends to the destroy
queue (registry, store and memberships untouched); destroying an identifier
that is not in the registry is a no-op, and flushing a queue containing such
an identifier produces the same state as flushing without it. -/
theorem removeEntity_unknown_noop {α : Type} (st : ECS α) (e : Nat)
    (hR : Reachable st) (h : aHas st.entities e = false) :
    (ECS.removeEntity e st).entities = st.entities
  ∧ (ECS.removeEntity e st).systems = st.systems
  ∧ ECS.destroyEntity e st = st
  ∧ ECS.flushDestroyQueue (ECS.removeEntity e st) = ECS.flushDestroyQueue st := by
  have hInv := reachable_engineInv hR
  have hinvb : EngineInv (st.entitiesToDestroy.foldl (fun acc x => ECS.destroyEntity x acc) st) :=
    engineInv_foldDestroy _ hInv
  have hbase : aHas (st.entitiesToDestroy.foldl
      (fun acc x => ECS.destroyEntity x acc) st).entities e = false :=
    aHas_foldDestroy_false _ h
  refine ⟨rfl, rfl, destroyEntity_noop hInv h, ?_⟩
  have h1 : ECS.flushDestroyQueue (ECS.removeEntity e st)
      = { ECS.destroyEntity e (st.entitiesToDestroy.foldl
            (fun acc x => ECS.destroyEntity x acc) st) with entitiesToDestroy := [] } := by
    rw [show ECS.removeEntity e st
        = { st with entitiesToDestroy := st.entitiesToDestroy ++ [e] } from rfl,
      flush_eq, List.foldl_append]
    rfl
  rw [h1, destroyEntity_noop hinvb hbase]
  rfl

/-- A concrete reachable state for the C9 witness: one system requiring
component type `0`, one entity with no components. -/
def c9State : ECS Nat :=
  ((ECS.addSystem ⟨0, [0]⟩ (initECS 0 : ECS Nat)).addEntity).2

theorem c9State_reachable : Reachable c9State :=
  Reachable.addEntity (Reachable.addSystem _ (Reachable.init 0))

/-- Witness for C9 at a concrete unknown identifier. -/
theorem removeEntity_unknown_noop_witness :
    aHas c9State.entities 5 = false
  ∧ ECS.destroyEntity 5 c9State = c9State
  ∧ ECS.flushDestroyQueue (ECS.removeEntity 5 c9State)
      = ECS.flushDestroyQueue c9State :=
  ⟨by decide,
   (removeEntity_unknown_noop c9State 5 c9State_reachable (by decide)).2.2.1,
   (removeEntity_unknown_noop c9State 5 c9State_reachable (by decide)).2.2.2⟩

/-! ### Shape lemmas: what one API call can and cannot change -/

theorem aHas_aSet_of_has {κ β : Type} [DecidableEq κ] {l : List (κ × β)} {k x : κ} {v : β}
    (h : aHas l x = true) : aHas (aSet l k v) x = true := by
  by_cases hx : x = k
  · subst hx
    rw [aHas_eq_isSome, aGet_aSet_self]
    rfl
  · rw [aHas_eq_isSome, aGet_aSet_ne hx, ← aHas_eq_isSome]
    exact h

/-- A single in-update API call preserves the timing fields, only appends to
the destroy queue, and never removes an entity from the registry. -/
theorem execCmd_shape {α : Type} (c : Cmd α) (st : ECS α) :
    (execCmd c st).1.start = st.start
  ∧ (execCmd c st).1.delta = st.delta
  ∧ (∃ ext, (execCmd c st).1.entitiesToDestroy = st.entitiesToDestroy ++ ext)
  ∧ (∀ x, aHas st.entities x = true → aHas (execCmd c st).1.entities x = true) := by
  cases c with
  | createEntity =>
    exact ⟨rfl, rfl, ⟨[], by simp [execCmd, recomputedState, execCmds, runSystems, ECS.addEntity]⟩, fun x hx => aHas_aSet_of_has hx⟩
  | removeEntity e => exact ⟨rfl, rfl, ⟨[e], rfl⟩, fun x hx => hx⟩
  | addComponent e cp =>
    cases hg : aGet st.entities e with
    | none =>
      rw [show execCmd (Cmd.addComponent e cp) st = (st, some (Err.unknownEntity e)) from by
        unfold execCmd; dsimp only; rw [addComponent_error hg]]
      exact ⟨rfl, rfl, ⟨[], by simp [execCmd, recomputedState, execCmds, runSystems, ECS.addEntity]⟩, fun x hx => hx⟩
    | some cs =>
      rw [show execCmd (Cmd.addComponent e cp) st
          = (recomputedState st e (aSet cs cp.type cp), none) from by
        unfold execCmd; dsimp only; rw [addComponent_ok hg]]
      exact ⟨rfl, rfl, ⟨[], by simp [execCmd, recomputedState, execCmds, runSystems, ECS.addEntity]⟩, fun x hx => aHas_aSet_of_has hx⟩
  | removeComponent e t =>
    cases hg : aGet st.entities e with
    | none =>
      rw [show execCmd (Cmd.removeComponent e t) st = (st, some (Err.unknownEntity e)) from by
        unfold execCmd; dsimp only; rw [removeComponent_error hg]]
      exact ⟨rfl, rfl, ⟨[], by simp [execCmd, recomputedState, execCmds, runSystems, ECS.addEntity]⟩, fun x hx => hx⟩
    | some cs =>
      rw [show execCmd (Cmd.removeComponent e t) st
          = (recomputedState st e (aDelete cs t), none) from by
        unfold execCmd; dsimp only; rw [removeComponent_ok hg]]
      exact ⟨rfl, rfl, ⟨[], by simp [execCmd, recomputedState, execCmds, runSystems, ECS.addEntity]⟩, fun x hx => aHas_aSet_of_has hx⟩
  | fail => exact ⟨rfl, rfl, ⟨[], by simp [execCmd, recomputedState, execCmds, runSystems, ECS.addEntity]⟩, fun x hx => hx⟩

/-- `execCmd_shape`, lifted to a whole command list (also across an abort). -/
theorem execCmds_shape {α : Type} (cmds : List (Cmd α)) (st : ECS α) :
    (execCmds cmds st).1.start = st.start
  ∧ (execCmds cmds st).1.delta = st.delta
  ∧ (∃ ext, (execCmds cmds st).1.entitiesToDestroy = st.entitiesToDestroy ++ ext)
  ∧ (∀ x, aHas st.entities x = true → aHas (execCmds cmds st).1.entities x = true) := by
  induction cmds generalizing st with
  | nil => exact ⟨rfl, rfl, ⟨[], by simp [execCmd, recomputedState, execCmds, runSystems, ECS.addEntity]⟩, fun x hx => hx⟩
  | cons c rest ih =>
    obtain ⟨h1, h2, ⟨ext1, h3⟩, h4⟩ := execCmd_shape c st
    show (execCmds (c :: rest) st).1.start = st.start ∧ _
    rw [execCmds]
    cases he : execCmd c st with
    | mk st' oe =>
      rw [he] at h1 h2 h3 h4
      cases oe with
      | none =>
        obtain ⟨g1, g2, ⟨ext2, g3⟩, g4⟩ := ih st'
        exact ⟨g1.trans h1, g2.trans h2,
          ⟨ext1 ++ ext2, by rw [g3, h3, List.append_assoc]⟩,
          fun x hx => g4 x (h4 x hx)⟩
      | some er => exact ⟨h1, h2, ⟨ext1, h3⟩, h4⟩

/-- `execCmd_shape`, lifted to the whole system loop. -/
theorem runSystems_shape {α : Type} (B : Behavior α) (L : List System) (st : ECS α) :
    (runSystems B L st).1.start = st.start
  ∧ (runSystems B L st).1.delta = st.delta
  ∧ (∃ ext, (runSystems B L st).1.entitiesToDestroy = st.entitiesToDestroy ++ ext)
  ∧ (∀ x, aHas st.entities x = true → aHas (runSystems B L st).1.entities x = true) := by
  induction L generalizing st with
  | nil => exact ⟨rfl, rfl, ⟨[], by simp [execCmd, recomputedState, execCmds, runSystems, ECS.addEntity]⟩, fun x hx => hx⟩
  | cons s rest ih =>
    obtain ⟨h1, h2, ⟨ext1, h3⟩, h4⟩ := execCmds_shape (B s (sysGetMem st s) st.view) st
    show (runSystems B (s :: rest) st).1.start = st.start ∧ _
    rw [runSystems]
    cases he : execCmds (B s (sysGetMem st s) st.view) st with
    | mk st' oe =>
      rw [he] at h1 h2 h3 h4
      cases oe with
      | none =>
        dsimp only
        cases hr : runSystems B rest st' with
        | mk st'' rest2 =>
          obtain ⟨g1, g2, ⟨ext2, g3⟩, g4⟩ := ih st'
          rw [hr] at g1 g2 g3 g4
          obtain ⟨er, log⟩ := rest2
          exact ⟨g1.trans h1, g2.trans h2,
            ⟨ext1 ++ ext2, by rw [g3, h3, List.append_assoc]⟩,
            fun x hx => g4 x (h4 x hx)⟩
      | some er => exact ⟨h1, h2, ⟨ext1, h3⟩, h4⟩

theorem foldDestroy_timing {α : Type} (L : List Nat) (st : ECS α) :
    (L.foldl (fun acc x => ECS.destroyEntity x acc) st).start = st.start
  ∧ (L.foldl (fun acc x => ECS.destroyEntity x acc) st).delta = st.delta := by
  induction L generalizing st with
  | nil => exact ⟨rfl, rfl⟩
  | cons x L ih =>
    rw [List.foldl_cons]
    exact ⟨(ih (ECS.destroyEntity x st)).1.trans rfl,
      (ih (ECS.destroyEntity x st)).2.trans rfl⟩

theorem flush_timing {α : Type} (st : ECS α) :
    (ECS.flushDestroyQueue st).start = st.start
  ∧ (ECS.flushDestroyQueue st).delta = st.delta := by
  unfold ECS.flushDestroyQueue
  dsimp only
  exact ⟨(foldDestroy_timing _ st).1, (foldDestroy_timing _ st).2⟩

/-- After `update now B st`, the frame delta is `now - st.start` and the
baseline is `now`, regardless of what the systems did and whether one threw. -/
theorem update_timing {α : Type} (now : Int) (B : Behavior α) (st : ECS α) :
    (ECS.update now B st).1.delta = now - st.start
  ∧ (ECS.update now B st).1.start = now := by
  unfold ECS.update
  cases hr : runSystems B (keysOf st.systems) (ECS.preUpdate now st) with
  | mk st2 rest2 =>
    have hs := runSystems_shape B (keysOf st.systems) (ECS.preUpdate now st)
    rw [hr] at hs
    obtain ⟨h1, h2, _, _⟩ := hs
    obtain ⟨er, log⟩ := rest2
    cases er with
    | none =>
      constructor
      · exact (flush_timing st2).2.trans h2
      · exact (flush_timing st2).1.trans h1
    | some er => exact ⟨h2, h1⟩

/-! ### Claim C7 -/

/-- Claim C7: with a monotone wall clock (`t1 ≤ t2`), the first `update` call
at time `t1` exposes delta `t1 - t0` (time since construction), and the second
call at time `t2` exposes the non-negative delta `t2 - t1`, the wall-clock
time between the starts of the two calls.  The delta is set before the system
loop and no operation changes it during the call, so this is exactly the value
systems read. -/
theorem frame_delta {α : Type} (t0 t1 t2 : Int) (B1 B2 : Behavior α) (h : t1 ≤ t2) :
    ((ECS.update t1 B1 (initECS t0 : ECS α)).1.delta = t1 - t0)
  ∧ ((ECS.update t2 B2 (ECS.update t1 B1 (initECS t0 : ECS α)).1).1.delta = t2 - t1)
  ∧ (0 ≤ (ECS.update t2 B2 (ECS.update t1 B1 (initECS t0 : ECS α)).1).1.delta) := by
  have h1 := update_timing t1 B1 (initECS t0 : ECS α)
  have h2 := update_timing t2 B2 (ECS.update t1 B1 (initECS t0 : ECS α)).1
  refine ⟨h1.1, ?_, ?_⟩
  · rw [h2.1, h1.2]
  · rw [h2.1, h1.2]
    omega

/-- A behavior under which every system performs no API call. -/
def noCmds : Behavior Nat := fun _ _ _ => []

/-- Witness for C7 at concrete clock readings 0, 1, 3. -/
theorem frame_delta_witness :
    (1 : Int) ≤ 3
  ∧ ((ECS.update 1 noCmds (initECS 0 : ECS Nat)).1.delta = 1 - 0)
  ∧ ((ECS.update 3 noCmds (ECS.update 1 noCmds (initECS 0 : ECS Nat)).1).1.delta = 3 - 1)
  ∧ (0 ≤ (ECS.update 3 noCmds (ECS.update 1 noCmds (initECS 0 : ECS Nat)).1).1.delta) :=
  ⟨by decide,
   (frame_delta 0 1 3 noCmds noCmds (by decide)).1,
   (frame_delta 0 1 3 noCmds noCmds (by decide)).2.1,
   (frame_delta 0 1 3 noCmds noCmds (by decide)).2.2⟩

/-! ### Claim C1 -/

/-- Claim C1 (amended): in every reachable state — in particular immediately
after any `addComponent`/`removeComponent`/`addSystem` call — every membership
set contains only registered entities that qualify for the system, and for
every registered entity owning at least one component, membership is exact
(member iff qualifying).  Full exactness for component-less entities fails on
the code (see the counterexample): `addEntity` performs no recomputation, so a
fresh entity can be missing from the membership of a system with empty
`requiredComponents`. -/
theorem membership_invariant {α : Type} (st : ECS α) (hR : Reachable st) :
    ∀ p ∈ st.systems,
      (∀ e ∈ p.2, aHas st.entities e = true
          ∧ ∃ cs, aGet st.entities e = some cs ∧ qualifies cs p.1 = true)
    ∧ (∀ q ∈ st.entities, q.2.isEmpty = false →
          (q.1 ∈ p.2 ↔ qualifies q.2 p.1 = true)) := by
  obtain ⟨hnd, hsnd, hkb, hsound, hcomp⟩ := reachable_engineInv hR
  intro p hp
  constructor
  · intro e he
    have hs := hsound p hp e he
    rw [qualifiesAtB_true_iff] at hs
    obtain ⟨cs, hcs, hq⟩ := hs
    exact ⟨by rw [aHas_eq_isSome, hcs]; rfl, ⟨cs, hcs, hq⟩⟩
  · intro q hq hne
    constructor
    · intro hmem
      have hs := hsound p hp q.1 hmem
      rw [qualifiesAtB_true_iff] at hs
      obtain ⟨cs, hcs, hqual⟩ := hs
      rw [aGet_of_mem_nodup hnd hq] at hcs
      injection hcs with hcs
      exact hcs ▸ hqual
    · intro hqual
      exact hcomp p hp q hq hne hqual

/-- The reachable state used by the C1 witness: one system requiring type `0`,
one entity that was given a component of type `0`. -/
def c1State : ECS Nat :=
  { systems := [(⟨1, [0]⟩, [0])], entities := [(0, [(0, ⟨42, 0⟩)])],
    start := 0, delta := 0, nextEntityID := 1, entitiesToDestroy := [] }

theorem c1State_reachable : Reachable c1State :=
  Reachable.addComponent
    (Reachable.addEntity (Reachable.addSystem ⟨1, [0]⟩ (Reachable.init 0)))
    (show ECS.addComponent 0 ⟨42, 0⟩
        ((ECS.addSystem ⟨1, [0]⟩ (initECS 0 : ECS Nat)).addEntity).2
      = Except.ok c1State by rfl)

/-- Witness for C1 at a concrete reachable state. -/
theorem membership_invariant_witness :
    (((⟨1, [0]⟩ : System), ([0] : List Nat)) ∈ c1State.systems)
  ∧ ((0, [(0, (⟨42, 0⟩ : Component Nat))]) ∈ c1State.entities)
  ∧ (0 ∈ ([0] : List Nat) ↔ qualifies [(0, (⟨42, 0⟩ : Component Nat))] ⟨1, [0]⟩ = true) :=
  ⟨by decide, by decide,
   (membership_invariant c1State c1State_reachable (⟨1, [0]⟩, [0]) (by decide)).2
     (0, [(0, ⟨42, 0⟩)]) (by decide) (by decide)⟩

/-- The engine state just before the C1 counterexample's `addComponent` call:
a system requiring nothing, then two fresh entities. -/
def c1CexPrev : ECS Nat :=
  (((ECS.addSystem ⟨0, []⟩ (initECS 0 : ECS Nat)).addEntity).2.addEntity).2

/-- The engine state immediately after that `addComponent` call. -/
def c1CexState : ECS Nat :=
  { systems := [(⟨0, []⟩, [0])], entities := [(0, [(0, ⟨42, 0⟩)]), (1, [])],
    start := 0, delta := 0, nextEntityID := 2, entitiesToDestroy := [] }

/-- Counterexample to C1 as stated: immediately after an `addComponent` call,
entity `1` is registered and its component-type set (empty) is a superset of
the registered system's empty `requiredComponents`, yet the system's
membership set is exactly `[0]`, which does not contain `1`. -/
theorem membership_invariant_counterexample :
    ECS.addComponent 0 (⟨42, 0⟩ : Component Nat) c1CexPrev = Except.ok c1CexState
  ∧ aHas c1CexState.entities 1 = true
  ∧ qualifiesAtB c1CexState 1 ⟨0, []⟩ = true
  ∧ aGet c1CexState.systems ⟨0, []⟩ = some [0]
  ∧ (1 ∉ ([0] : List Nat)) :=
  ⟨rfl, by decide, by decide, by decide, by decide⟩

/-! ### Claim C10 -/

theorem aGet_map_snd {κ β γ : Type} [DecidableEq κ] (l : List (κ × β)) (F : κ → β → γ)
    (k : κ) :
    aGet (l.map (fun p => (p.1, F p.1 p.2))) k = (aGet l k).map (fun v => F k v) := by
  induction l with
  | nil => rfl
  | cons q l ih =>
    rw [List.map_cons, aGet_cons, aGet_cons]
    dsimp only
    by_cases hq : q.1 = k
    · rw [if_pos hq, if_pos hq, hq]
      rfl
    · rw [if_neg hq, if_neg hq]
      exact ih

/-- Claim C10 (amended): `addSystem` on an already-registered system does not
duplicate it and preserves every system's position (the key list is
unchanged), and afterwards the system's membership set holds exactly the
registered entities qualifying for it — which equals the pre-call membership
whenever that was already exact, but can differ otherwise (see the
counterexample). -/
theorem addSystem_idempotent {α : Type} (st : ECS α) (s : System)
    (hs : aHas st.systems s = true) (hnd : (keysOf st.entities).Nodup) :
    keysOf (ECS.addSystem s st).systems = keysOf st.systems
  ∧ (∀ x, x ∈ sysGetMem (ECS.addSystem s st) s ↔
        ∃ cs, aGet st.entities x = some cs ∧ qualifies cs s = true) := by
  refine ⟨keysOf_addSystem_of_has hs, ?_⟩
  intro x
  have hmem : sysGetMem (ECS.addSystem s st) s = recomputeFold s st.entities [] := by
    unfold sysGetMem
    rw [show (ECS.addSystem s st).systems
        = (aSet st.systems s []).map (fun p => (p.1, recomputeFold p.1 st.entities p.2))
        from addSystem_systems_eq]
    rw [aGet_map_snd _ (fun k v => recomputeFold k st.entities v), aGet_aSet_self]
    rfl
  rw [hmem]
  cases hg : aGet st.entities x with
  | some cs =>
    rw [mem_recomputeFold_found hnd hg]
    constructor
    · intro hq
      exact ⟨cs, rfl, hq⟩
    · rintro ⟨cs', hcs', hq⟩
      injection hcs' with hcs'
      exact hcs' ▸ hq
  | none =>
    rw [mem_recomputeFold_notfound hg]
    constructor
    · intro hx
      cases hx
    · rintro ⟨cs', hcs', _⟩
      cases hcs'

/-- The state for the C10 counterexample and witness: a system with empty
`requiredComponents` registered while no entities existed, then one fresh
entity. -/
def c10State : ECS Nat :=
  ((ECS.addSystem ⟨0, []⟩ (initECS 0 : ECS Nat)).addEntity).2

/-- Counterexample to C10 as stated: re-registering the already-registered
system changes its membership set from `[]` to `[0]` — the recomputed set of
qualifying registered entities, not the pre-call membership. -/
theorem addSystem_idempotent_counterexample :
    aHas c10State.systems ⟨0, []⟩ = true
  ∧ sysGetMem c10State ⟨0, []⟩ = []
  ∧ sysGetMem (ECS.addSystem ⟨0, []⟩ c10State) ⟨0, []⟩ = [0] := by
  decide

/-- Witness for the amended C10 at a concrete state. -/
theorem addSystem_idempotent_witness :
    aHas c10State.systems ⟨0, []⟩ = true
  ∧ (keysOf c10State.entities).Nodup
  ∧ keysOf (ECS.addSystem ⟨0, []⟩ c10State).systems = keysOf c10State.systems
  ∧ (0 ∈ sysGetMem (ECS.addSystem ⟨0, []⟩ c10State) ⟨0, []⟩ ↔
      ∃ cs, aGet c10State.entities 0 = some cs ∧ qualifies cs ⟨0, []⟩ = true) :=
  ⟨by decide, by decide,
   (addSystem_idempotent c10State ⟨0, []⟩ (by decide) (by decide)).1,
   (addSystem_idempotent c10State ⟨0, []⟩ (by decide) (by decide)).2 0⟩

/-! ### Claim C8 -/

theorem runSystems_append {α : Type} (B : Behavior α) (l1 l2 : List System) (st : ECS α) :
    runSystems B (l1 ++ l2) st =
      match runSystems B l1 st with
      | (st', none, log1) =>
        match runSystems B l2 st' with
        | (st'', er, log2) => (st'', er, log1 ++ log2)
      | (st', some er, log1) => (st', some er, log1) := by
  induction l1 generalizing st with
  | nil => rfl
  | cons s l1 ih =>
    rw [List.cons_append]
    rw [show runSystems B (s :: (l1 ++ l2)) st
        = match execCmds (B s (sysGetMem st s) st.view) st with
          | (st', none) =>
            match runSystems B (l1 ++ l2) st' with
            | (st'', er, log) => (st'', er, (s, sysGetMem st s) :: log)
          | (st', some er) => (st', some er, [(s, sysGetMem st s)]) from rfl]
    rw [show runSystems B (s :: l1) st
        = match execCmds (B s (sysGetMem st s) st.view) st with
          | (st', none) =>
            match runSystems B l1 st' with
            | (st'', er, log) => (st'', er, (s, sysGetMem st s) :: log)
          | (st', some er) => (st', some er, [(s, sysGetMem st s)]) from rfl]
    cases he : execCmds (B s (sysGetMem st s) st.view) st with
    | mk st' oe =>
      cases oe with
      | none =>
        dsimp only
        rw [ih st']
        cases h1 : runSystems B l1 st' with
        | mk st1 r1 =>
          obtain ⟨er1, log1⟩ := r1
          cases er1 with
          | none =>
            dsimp only
            cases h2 : runSystems B l2 st1 with
            | mk st2 r2 => rfl
          | some er1 => rfl
      | some er => rfl

theorem runSystems_log_keys {α : Type} (B : Behavior α) (L : List System) (st : ECS α)
    {st2 : ECS α} {log : List (System × List Nat)}
    (h : runSystems B L st = (st2, none, log)) : log.map (fun q => q.1) = L := by
  induction L generalizing st st2 log with
  | nil =>
    injection h with h1 h2
    injection h2 with h2 h3
    rw [← h3]
    rfl
  | cons s rest ih =>
    rw [runSystems] at h
    cases he : execCmds (B s (sysGetMem st s) st.view) st with
    | mk st' oe =>
      rw [he] at h
      cases oe with
      | none =>
        dsimp only at h
        cases hr : runSystems B rest st' with
        | mk st'' r2 =>
          rw [hr] at h
          obtain ⟨er, log2⟩ := r2
          injection h with h1 h2
          injection h2 with h2 h3
          subst h2
          rw [← h3, List.map_cons, ih st' hr]
      | some er =>
        dsimp only at h
        injection h with h1 h2
        injection h2 with h2 h3
        cases h2

theorem runSystems_log_get {α : Type} (B : Behavior α) (l1 : List System) (s : System)
    (l2 : List System) (st : ECS α) {st2 : ECS α} {log : List (System × List Nat)}
    (h : runSystems B (l1 ++ s :: l2) st = (st2, none, log)) :
    log[l1.length]? = some (s, sysGetMem (runSystems B l1 st).1 s) := by
  rw [runSystems_append] at h
  cases hr1 : runSystems B l1 st with
  | mk mid r1 =>
    rw [hr1] at h
    obtain ⟨er1, log1⟩ := r1
    cases er1 with
    | some er1 =>
      dsimp only at h
      injection h with h1 h2
      injection h2 with h2 h3
      cases h2
    | none =>
      dsimp only at h
      rw [runSystems] at h
      cases he : execCmds (B s (sysGetMem mid s) mid.view) mid with
      | mk mid2 oe =>
        rw [he] at h
        cases oe with
        | none =>
          dsimp only at h
          cases hr2 : runSystems B l2 mid2 with
          | mk st3 r3 =>
            rw [hr2] at h
            obtain ⟨er3, log3⟩ := r3
            injection h with h1 h2
            injection h2 with h2 h3
            subst h3
            have hkeys := runSystems_log_keys B l1 st hr1
            have hlen : log1.length = l1.length := by
              rw [← hkeys, List.length_map]
            dsimp only
            rw [List.getElem?_append, ← hlen, if_neg (Nat.lt_irrefl _), Nat.sub_self]
            exact List.getElem?_cons_zero
        | some er =>
          dsimp only at h
          injection h with h1 h2
          injection h2 with h2 h3
          cases h2

/-- Claim C8: when no system throws, `update` invokes each registered system
exactly once, in the order of the system registry (registration order: the
final conjunct shows `addSystem` appends a newly registered system at the
end of the key list, and re-registration keeps positions), handing each the
membership set current at its invocation (together with the engine handle,
modelled as the view behaviors receive). -/
theorem update_invokes_systems_in_order {α : Type} (st : ECS α) (B : Behavior α)
    (now : Int) (st2 : ECS α) (log : List (System × List Nat))
    (hrun : runSystems B (keysOf st.systems) (ECS.preUpdate now st) = (st2, none, log)) :
    ECS.update now B st = (ECS.flushDestroyQueue st2, none, log)
  ∧ log.map (fun q => q.1) = keysOf st.systems
  ∧ (∀ l1 s l2, keysOf st.systems = l1 ++ s :: l2 →
      log[l1.length]? = some (s, sysGetMem (runSystems B l1 (ECS.preUpdate now st)).1 s))
  ∧ (∀ s2, aHas st.systems s2 = false →
      keysOf (ECS.addSystem s2 st).systems = keysOf st.systems ++ [s2]) := by
  refine ⟨?_, runSystems_log_keys B _ _ hrun, ?_, ?_⟩
  · unfold ECS.update
    rw [hrun]
  · intro l1 s l2 hsplit
    exact runSystems_log_get B l1 s l2 (ECS.preUpdate now st) (by rw [← hsplit]; exact hrun)
  · intro s2 hs2
    exact keysOf_addSystem_of_not_has hs2

/-- The state for the C8 witness: two registered systems, no entities. -/
def c8State : ECS Nat :=
  ECS.addSystem ⟨1, []⟩ (ECS.addSystem ⟨0, []⟩ (initECS 0 : ECS Nat))

/-- The state after the C8 witness's `update` system loop. -/
def c8After : ECS Nat :=
  { systems := [(⟨0, []⟩, []), (⟨1, []⟩, [])], entities := [], start := 2, delta := 2,
    nextEntityID := 0, entitiesToDestroy := [] }

/-- Witness for C8: an `update` at a concrete state invokes both systems once,
in registration order, logging their membership sets. -/
theorem update_invokes_systems_in_order_witness :
    runSystems noCmds (keysOf c8State.systems) (ECS.preUpdate 2 c8State)
      = (c8After, none, [(⟨0, []⟩, []), (⟨1, []⟩, [])])
  ∧ ECS.update 2 noCmds c8State
      = (ECS.flushDestroyQueue c8After, none, [(⟨0, []⟩, []), (⟨1, []⟩, [])])
  ∧ ([((⟨0, []⟩ : System), ([] : List Nat)), (⟨1, []⟩, [])].map (fun q => q.1)
      = keysOf c8State.systems) :=
  have hrun : runSystems noCmds (keysOf c8State.systems) (ECS.preUpdate 2 c8State)
      = (c8After, none, [(⟨0, []⟩, []), (⟨1, []⟩, [])]) := by rfl
  ⟨hrun,
   (update_invokes_systems_in_order c8State noCmds 2 c8After
      [(⟨0, []⟩, []), (⟨1, []⟩, [])] hrun).1,
   (update_invokes_systems_in_order c8State noCmds 2 c8After
      [(⟨0, []⟩, []), (⟨1, []⟩, [])] hrun).2.1⟩

/-! ### Claim C5 -/

/-- Claim C5: if the system at position `l1.length` of the registry throws
while the systems before it ran cleanly, `update` returns that error at the
abort state: the systems in `l2` are not invoked (the log stops at the
failing system), the destroy queue is not flushed — the state returned is the
un-flushed abort state, with every previously queued entity still pending —
and no queued destruction has been applied. -/
theorem update_aborts_on_error {α : Type} (st : ECS α) (B : Behavior α) (now : Int)
    (l1 : List System) (s : System) (l2 : List System) (mid mid' : ECS α)
    (log1 : List (System × List Nat)) (er : Err)
    (hsplit : keysOf st.systems = l1 ++ s :: l2)
    (h1 : runSystems B l1 (ECS.preUpdate now st) = (mid, none, log1))
    (h2 : execCmds (B s (sysGetMem mid s) mid.view) mid = (mid', some er)) :
    ECS.update now B st = (mid', some er, log1 ++ [(s, sysGetMem mid s)])
  ∧ (∀ x ∈ st.entitiesToDestroy, x ∈ mid'.entitiesToDestroy) := by
  have hfull : runSystems B (keysOf st.systems) (ECS.preUpdate now st)
      = (mid', some er, log1 ++ [(s, sysGetMem mid s)]) := by
    rw [hsplit, runSystems_append, h1]
    dsimp only
    rw [runSystems, h2]
  constructor
  · unfold ECS.update
    rw [hfull]
  · intro x hx
    obtain ⟨_, _, ⟨ext1, he1⟩, _⟩ := runSystems_shape B l1 (ECS.preUpdate now st)
    rw [h1] at he1
    obtain ⟨_, _, ⟨ext2, he2⟩, _⟩ := execCmds_shape (B s (sysGetMem mid s) mid.view) mid
    rw [h2] at he2
    rw [he2, he1]
    exact List.mem_append.mpr (Or.inl (List.mem_append.mpr (Or.inl hx)))

/-- A behavior under which every system throws immediately. -/
def failBehavior : Behavior Nat := fun _ _ _ => [Cmd.fail]

/-- The state for the C5 witness: one registered system, entity `7` already
queued for destruction. -/
def c5State : ECS Nat :=
  ECS.removeEntity 7 (ECS.addSystem ⟨0, []⟩ (initECS 0 : ECS Nat))

/-- The abort state of the C5 witness (the timing fields were updated, the
queue still holds entity `7`). -/
def c5Mid : ECS Nat :=
  { systems := [(⟨0, []⟩, [])], entities := [], start := 1, delta := 1,
    nextEntityID := 0, entitiesToDestroy := [7] }

/-- Witness for C5: the single system throws; `update` returns the error, the
queue is left unflushed with entity `7` still pending. -/
theorem update_aborts_on_error_witness :
    keysOf c5State.systems = [] ++ (⟨0, []⟩ : System) :: []
  ∧ runSystems failBehavior [] (ECS.preUpdate 1 c5State) = (c5Mid, none, [])
  ∧ execCmds (failBehavior ⟨0, []⟩ (sysGetMem c5Mid ⟨0, []⟩) c5Mid.view) c5Mid
      = (c5Mid, some Err.systemError)
  ∧ ECS.update 1 failBehavior c5State
      = (c5Mid, some Err.systemError, [] ++ [(⟨0, []⟩, sysGetMem c5Mid ⟨0, []⟩)])
  ∧ 7 ∈ c5Mid.entitiesToDestroy :=
  have hsplit : keysOf c5State.systems = [] ++ (⟨0, []⟩ : System) :: [] := by decide
  have h1 : runSystems failBehavior [] (ECS.preUpdate 1 c5State) = (c5Mid, none, []) := by rfl
  have h2 : execCmds (failBehavior ⟨0, []⟩ (sysGetMem c5Mid ⟨0, []⟩) c5Mid.view) c5Mid
      = (c5Mid, some Err.systemError) := by rfl
  ⟨hsplit, h1, h2,
   (update_aborts_on_error c5State failBehavior 1 [] ⟨0, []⟩ [] c5Mid c5Mid []
      Err.systemError hsplit h1 h2).1,
   (update_aborts_on_error c5State failBehavior 1 [] ⟨0, []⟩ [] c5Mid c5Mid []
      Err.systemError hsplit h1 h2).2 7 (by decide)⟩

/-! ### Claim C2 -/

theorem qualifies_aSet {α : Type} {cs : Store α} {c : Component α} {s : System}
    (h : qualifies cs s = true) : qualifies (aSet cs c.type c) s = true := by
  unfold qualifies at h ⊢
  rw [List.all_eq_true] at h ⊢
  intro t ht
  exact aHas_aSet_of_has (h t ht)

theorem mem_sysGetMem_iff {α : Type} {st : ECS α} {k : System} {e : Nat} :
    e ∈ sysGetMem st k ↔ ∃ m, aGet st.systems k = some m ∧ e ∈ m := by
  unfold sysGetMem
  cases h : aGet st.systems k <;> simp

theorem sysGetMem_recomputedState {α : Type} {st : ECS α} {e' : Nat} {cs' : Store α}
    {k : System} :
    sysGetMem (recomputedState st e' cs') k
      = match aGet st.systems k with
        | some m => if qualifies cs' k then setAdd m e' else setDelete m e'
        | none => [] := by
  unfold sysGetMem recomputedState
  dsimp only
  rw [recompute_eq_map,
    aGet_map_snd _ (fun k v => if qualifies cs' k then setAdd v e' else setDelete v e')]
  cases aGet st.systems k <;> rfl

/-- One in-update API call that is not `removeComponent` targeting `e` never
removes `e` from a membership set (given the engine invariant). -/
theorem execCmd_preserves_mem {α : Type} {c : Cmd α} {st : ECS α} {e : Nat}
    (hInv : EngineInv st) (hc : ∀ t, c ≠ Cmd.removeComponent e t) :
    ∀ k, e ∈ sysGetMem st k → e ∈ sysGetMem (execCmd c st).1 k := by
  cases c with
  | createEntity => exact fun k h => h
  | removeEntity x => exact fun k h => h
  | fail => exact fun k h => h
  | addComponent e' c' =>
    intro k hmem
    cases hg : aGet st.entities e' with
    | none =>
      rw [show execCmd (Cmd.addComponent e' c') st = (st, some (Err.unknownEntity e')) from by
        unfold execCmd; dsimp only; rw [addComponent_error hg]]
      exact hmem
    | some cs =>
      rw [show execCmd (Cmd.addComponent e' c') st
          = (recomputedState st e' (aSet cs c'.type c'), none) from by
        unfold execCmd; dsimp only; rw [addComponent_ok hg]]
      rw [mem_sysGetMem_iff] at hmem
      obtain ⟨m, hm, hem⟩ := hmem
      show e ∈ sysGetMem (recomputedState st e' (aSet cs c'.type c')) k
      rw [sysGetMem_recomputedState, hm]
      dsimp only
      by_cases hee : e' = e
      · subst hee
        have hsound := hInv.2.2.2.1 (k, m) (mem_of_aGet_eq_some hm) e' hem
        rw [qualifiesAtB_true_iff] at hsound
        obtain ⟨cs₀, hcs₀, hq₀⟩ := hsound
        rw [hg] at hcs₀
        injection hcs₀ with hcs₀
        subst hcs₀
        rw [if_pos (qualifies_aSet hq₀)]
        exact self_mem_setAdd
      · by_cases hqual : qualifies (aSet cs c'.type c') k = true
        · rw [if_pos hqual]
          exact mem_setAdd.mpr (Or.inl hem)
        · rw [if_neg hqual]
          exact mem_setDelete.mpr ⟨hem, fun hx => hee hx.symm⟩
  | removeComponent e' t =>
    intro k hmem
    have hne : e ≠ e' := fun hx => hc t (by rw [hx])
    cases hg : aGet st.entities e' with
    | none =>
      rw [show execCmd (Cmd.removeComponent e' t) st = (st, some (Err.unknownEntity e')) from by
        unfold execCmd; dsimp only; rw [removeComponent_error hg]]
      exact hmem
    | some cs =>
      rw [show execCmd (Cmd.removeComponent e' t) st
          = (recomputedState st e' (aDelete cs t), none) from by
        unfold execCmd; dsimp only; rw [removeComponent_ok hg]]
      rw [mem_sysGetMem_iff] at hmem
      obtain ⟨m, hm, hem⟩ := hmem
      show e ∈ sysGetMem (recomputedState st e' (aDelete cs t)) k
      rw [sysGetMem_recomputedState, hm]
      dsimp only
      by_cases hqual : qualifies (aDelete cs t) k = true
      · rw [if_pos hqual]
        exact mem_setAdd.mpr (Or.inl hem)
      · rw [if_neg hqual]
        exact mem_setDelete.mpr ⟨hem, fun hx => hne hx⟩

theorem execCmds_preserves_mem {α : Type} {cmds : List (Cmd α)} {st : ECS α} {e : Nat}
    (hInv : EngineInv st) (hcmds : ∀ t, Cmd.removeComponent e t ∉ cmds) :
    ∀ k, e ∈ sysGetMem st k → e ∈ sysGetMem (execCmds cmds st).1 k := by
  induction cmds generalizing st with
  | nil => exact fun k h => h
  | cons c rest ih =>
    intro k hmem
    have hc : ∀ t, c ≠ Cmd.removeComponent e t :=
      fun t hx => hcmds t (by rw [← hx]; exact List.mem_cons_self c rest)
    have h1 := execCmd_preserves_mem hInv hc k hmem
    show e ∈ sysGetMem (execCmds (c :: rest) st).1 k
    rw [execCmds]
    cases he : execCmd c st with
    | mk st' oe =>
      rw [he] at h1
      cases oe with
      | none =>
        have hInv' : EngineInv st' := by
          have hx := engineInv_execCmd (c := c) hInv
          rwa [he] at hx
        exact ih hInv' (fun t hx => hcmds t (List.mem_cons_of_mem c hx)) k h1
      | some er => exact h1

theorem runSystems_preserves_mem {α : Type} {B : Behavior α} {L : List System}
    {st : ECS α} {e : Nat} (hInv : EngineInv st)
    (hB : ∀ s m v t, Cmd.removeComponent e t ∉ B s m v) :
    ∀ k, e ∈ sysGetMem st k → e ∈ sysGetMem (runSystems B L st).1 k := by
  induction L generalizing st with
  | nil => exact fun k h => h
  | cons s rest ih =>
    intro k hmem
    have h1 := execCmds_preserves_mem hInv (fun t => hB s (sysGetMem st s) st.view t) k hmem
    show e ∈ sysGetMem (runSystems B (s :: rest) st).1 k
    rw [runSystems]
    cases he : execCmds (B s (sysGetMem st s) st.view) st with
    | mk st' oe =>
      rw [he] at h1
      cases oe with
      | none =>
        dsimp only
        have hInv' : EngineInv st' := by
          have hx : EngineInv (execCmds (B s (sysGetMem st s) st.view) st).1 :=
            engineInv_execCmds hInv
          rwa [he] at hx
        cases hr : runSystems B rest st' with
        | mk st'' r2 =>
          have h2 := ih hInv' k h1
          rw [hr] at h2
          obtain ⟨er, log⟩ := r2
          exact h2
      | some er => exact h1

/-- If a system's command list contains `removeEntity e` and runs without
error, `e` ends up in the destroy queue. -/
theorem execCmds_queues_removal {α : Type} (cmds : List (Cmd α)) (st : ECS α) {e : Nat}
    (hmem : Cmd.removeEntity e ∈ cmds) (hok : (execCmds cmds st).2 = none) :
    e ∈ (execCmds cmds st).1.entitiesToDestroy := by
  induction cmds generalizing st with
  | nil => cases hmem
  | cons c rest ih =>
    rw [execCmds] at hok ⊢
    cases he : execCmd c st with
    | mk st' oe =>
      rw [he] at hok
      cases oe with
      | none =>
        rcases List.mem_cons.mp hmem with hc | hmem'
        · have h1 : ECS.removeEntity e st = st' := by
            rw [← hc] at he
            exact congrArg Prod.fst he
          obtain ⟨_, _, ⟨ext, hext⟩, _⟩ := execCmds_shape rest st'
          rw [hext, ← h1]
          exact List.mem_append.mpr (Or.inl (List.mem_append.mpr
            (Or.inr (List.mem_singleton.mpr rfl))))
        · exact ih st' hmem' hok
      | some er => simp at hok

theorem eFree_destroy {α : Type} {st : ECS α} {e x : Nat}
    (h1 : aGet st.entities e = none) (h2 : ∀ p ∈ st.systems, e ∉ p.2) :
    aGet (ECS.destroyEntity x st).entities e = none
  ∧ ∀ p ∈ (ECS.destroyEntity x st).systems, e ∉ p.2 := by
  constructor
  · show aGet (aDelete st.entities x) e = none
    by_cases hx : e = x
    · rw [hx, aGet_aDelete_self]
    · rw [aGet_aDelete_ne hx, h1]
  · intro p hp
    obtain ⟨p₀, hp₀, rfl⟩ := List.mem_map.mp hp
    dsimp only
    intro hmem
    exact h2 p₀ hp₀ (mem_setDelete.mp hmem).1

theorem destroy_makes_eFree {α : Type} (st : ECS α) (e : Nat) :
    aGet (ECS.destroyEntity e st).entities e = none
  ∧ ∀ p ∈ (ECS.destroyEntity e st).systems, e ∉ p.2 := by
  constructor
  · exact aGet_aDelete_self
  · intro p hp
    obtain ⟨p₀, hp₀, rfl⟩ := List.mem_map.mp hp
    exact not_mem_setDelete_self

theorem foldDestroy_eFree {α : Type} (L : List Nat) {st : ECS α} {e : Nat}
    (h1 : aGet st.entities e = none) (h2 : ∀ p ∈ st.systems, e ∉ p.2) :
    aGet (L.foldl (fun acc x => ECS.destroyEntity x acc) st).entities e = none
  ∧ ∀ p ∈ (L.foldl (fun acc x => ECS.destroyEntity x acc) st).systems, e ∉ p.2 := by
  induction L generalizing st with
  | nil => exact ⟨h1, h2⟩
  | cons x L ih =>
    rw [List.foldl_cons]
    have := eFree_destroy (x := x) h1 h2
    exact ih this.1 this.2

/-- Flushing removes every queued entity from the registry and from every
membership set. -/
theorem flush_removes_queued {α : Type} {st : ECS α} {e : Nat}
    (h : e ∈ st.entitiesToDestroy) :
    aGet (ECS.flushDestroyQueue st).entities e = none
  ∧ ∀ p ∈ (ECS.flushDestroyQueue st).systems, e ∉ p.2 := by
  obtain ⟨s1, s2, hsplit⟩ := List.append_of_mem h
  unfold ECS.flushDestroyQueue
  dsimp only
  rw [hsplit, List.foldl_append, List.foldl_cons]
  have base := destroy_makes_eFree
    (s1.foldl (fun acc x => ECS.destroyEntity x acc) st) e
  exact foldDestroy_eFree s2 base.1 base.2

/-- Claim C2 (deferred destruction).  With the engine invariant and systems
that never `removeComponent` on `e`:
(a) a destruction request leaves the registry, component store and every
    membership set untouched — it only queues;
(b) during the remainder of the same `update` (after any prefix `l1` of the
    system loop) a registered `e` is still registered and still in every
    membership set it was in, so later systems of the frame still see it;
(c) if a system's command list contains `removeEntity e` and runs cleanly,
    `e` is in the destroy queue afterwards;
(d) when the loop finishes without error with `e` queued, `update` returns the
    flushed state, in which `e` is absent from the component store (no
    registry entry at all) and from every membership set. -/
theorem deferred_destruction {α : Type} (st : ECS α) (B : Behavior α) (now : Int)
    (e : Nat) (hInv : EngineInv st)
    (hB : ∀ s m v t, Cmd.removeComponent e t ∉ B s m v) :
    ((ECS.removeEntity e st).entities = st.entities
      ∧ (ECS.removeEntity e st).systems = st.systems)
  ∧ (∀ l1 l2, keysOf st.systems = l1 ++ l2 →
       (aHas st.entities e = true →
          aHas (runSystems B l1 (ECS.preUpdate now st)).1.entities e = true)
     ∧ (∀ k, e ∈ sysGetMem st k →
          e ∈ sysGetMem (runSystems B l1 (ECS.preUpdate now st)).1 k))
  ∧ (∀ cmds st0, Cmd.removeEntity e ∈ cmds → (execCmds cmds st0).2 = none →
       e ∈ (execCmds cmds (st0 : ECS α)).1.entitiesToDestroy)
  ∧ (∀ st2 log,
       runSystems B (keysOf st.systems) (ECS.preUpdate now st) = (st2, none, log) →
       e ∈ st2.entitiesToDestroy →
         ECS.update now B st = (ECS.flushDestroyQueue st2, none, log)
       ∧ aGet (ECS.flushDestroyQueue st2).entities e = none
       ∧ ∀ p ∈ (ECS.flushDestroyQueue st2).systems, e ∉ p.2) := by
  refine ⟨⟨rfl, rfl⟩, ?_, ?_, ?_⟩
  · intro l1 l2 hsplit
    constructor
    · intro hhas
      exact (runSystems_shape B l1 (ECS.preUpdate now st)).2.2.2 e hhas
    · intro k hk
      have hInv2 : EngineInv (ECS.preUpdate now st) := hInv
      have hk2 : e ∈ sysGetMem (ECS.preUpdate now st) k := hk
      exact runSystems_preserves_mem hInv2 hB k hk2
  · intro cmds st0 hmem hok
    exact execCmds_queues_removal cmds st0 hmem hok
  · intro st2 log hrun hq
    refine ⟨?_, (flush_removes_queued hq).1, (flush_removes_queued hq).2⟩
    unfold ECS.update
    rw [hrun]

/-- The behavior of the C2 witness: every system requests destruction of
entity `0`. -/
def destroyBehavior : Behavior Nat := fun _ _ _ => [Cmd.removeEntity 0]

/-- The C2 witness's state after the system loop: entity `0` queued. -/
def c2Mid : ECS Nat :=
  { systems := [(⟨1, [0]⟩, [0])], entities := [(0, [(0, ⟨42, 0⟩)])], start := 1,
    delta := 1, nextEntityID := 1, entitiesToDestroy := [0] }

/-- Witness for C2 at a concrete state: destruction of entity `0` requested
during the frame is deferred, and after `update` returns the entity is gone
from store and memberships. -/
theorem deferred_destruction_witness :
    EngineInv c1State
  ∧ (∀ s m v t, Cmd.removeComponent 0 t ∉ destroyBehavior s m v)
  ∧ ((ECS.removeEntity 0 c1State).entities = c1State.entities
      ∧ (ECS.removeEntity 0 c1State).systems = c1State.systems)
  ∧ runSystems destroyBehavior (keysOf c1State.systems) (ECS.preUpdate 1 c1State)
      = (c2Mid, none, [(⟨1, [0]⟩, [0])])
  ∧ ECS.update 1 destroyBehavior c1State
      = (ECS.flushDestroyQueue c2Mid, none, [(⟨1, [0]⟩, [0])])
  ∧ aGet (ECS.flushDestroyQueue c2Mid).entities 0 = none
  ∧ (∀ p ∈ (ECS.flushDestroyQueue c2Mid).systems, 0 ∉ p.2) :=
  have hInv : EngineInv c1State := by decide
  have hB : ∀ s m v t, Cmd.removeComponent 0 t ∉ destroyBehavior s m v := by
    intro s m v t hmem
    simp [destroyBehavior] at hmem
  have hrun : runSystems destroyBehavior (keysOf c1State.systems) (ECS.preUpdate 1 c1State)
      = (c2Mid, none, [(⟨1, [0]⟩, [0])]) := by rfl
  ⟨hInv, hB,
   (deferred_destruction c1State destroyBehavior 1 0 hInv hB).1,
   hrun,
   ((deferred_destruction c1State destroyBehavior 1 0 hInv hB).2.2.2 c2Mid
      [(⟨1, [0]⟩, [0])] hrun (by decide)).1,
   ((deferred_destruction c1State destroyBehavior 1 0 hInv hB).2.2.2 c2Mid
      [(⟨1, [0]⟩, [0])] hrun (by decide)).2.1,
   ((deferred_destruction c1State destroyBehavior 1 0 hInv hB).2.2.2 c2Mid
      [(⟨1, [0]⟩, [0])] hrun (by decide)).2.2⟩
